import Mathlib

/-!
# chrome-addon-mikud: postal-code lookup pipeline and bounded search history

A shallow embedding of `src/utils/api.js` (`API.buildUrl`, `API.searchZipCode`,
`API.parseResponse`) and `src/utils/storage.js` (`Storage.saveToHistory`).

JavaScript strings are sequences of UTF-16 code units; they are modelled as
lists of natural numbers (`JSString`), each element being one code unit.
-/

namespace Mikud

/-! ## Strings -/

/-- A JavaScript string: the list of its UTF-16 code units. -/
abbrev JSString := List Nat

/-- Every element is a 16-bit code unit. -/
def IsJSString (s : JSString) : Prop := ∀ c ∈ s, c < 65536

/-- The code units of a string literal whose characters all lie in the Basic
Multilingual Plane. -/
def lit (s : String) : JSString := s.toList.map Char.toNat

/-- The regular-expression class `\d` (no `u`/`i` flag): `0`-`9`. -/
def isDigit (c : Nat) : Bool := decide (48 ≤ c) && decide (c ≤ 57)

/-- The class `[a-zA-Z0-9]` used by `encodeParam`. -/
def isAlnum (c : Nat) : Bool :=
  (decide (97 ≤ c) && decide (c ≤ 122)) || (decide (65 ≤ c) && decide (c ≤ 90)) || isDigit c

/-- The regular-expression class `\w` (no `u`/`i` flag): `[A-Za-z0-9_]`. -/
def isWordChar (c : Nat) : Bool := isAlnum c || c == 95

/-- The code units removed by `String.prototype.trim`: ECMAScript WhiteSpace
and LineTerminator. -/
def isWhiteSpace (c : Nat) : Bool :=
  c == 9 || c == 10 || c == 11 || c == 12 || c == 13 || c == 32 || c == 160 ||
  c == 5760 || (decide (8192 ≤ c) && decide (c ≤ 8202)) || c == 8232 || c == 8233 ||
  c == 8239 || c == 8287 || c == 12288 || c == 65279

/-- The method `String.prototype.trimStart`. -/
def trimStart (s : JSString) : JSString := s.dropWhile isWhiteSpace

/-- The method `String.prototype.trimEnd`. -/
def trimEnd (s : JSString) : JSString := (s.reverse.dropWhile isWhiteSpace).reverse

/-- The method `String.prototype.trim`. -/
def trim (s : JSString) : JSString := trimEnd (trimStart s)

/-- The method `String.prototype.includes`: `sub` occurs in `s` as a contiguous
substring. -/
def includes (s sub : JSString) : Bool :=
  match s with
  | [] => sub.isEmpty
  | c :: cs => sub.isPrefixOf (c :: cs) || includes cs sub

/-! ## `API.parseResponse` -/

/-- One element of the array returned by `parseResponse`:
the object `{ zipCode, raw }`. -/
structure ZipRecord where
  zipCode : JSString
  raw : JSString
deriving DecidableEq, Repr

/-- The pattern `/RES\d{5,}/` anchored at the start of `s`: the literal `RES`
followed by the greedy digit run, which must hold at least five digits. -/
def matchResAt (s : JSString) : Option JSString :=
  match s with
  | 82 :: 69 :: 83 :: rest =>
    let ds := rest.takeWhile isDigit
    if 5 ≤ ds.length then some (82 :: 69 :: 83 :: ds) else none
  | _ => none

/-- The value `trimmed.match(/RES\d{5,}/)` reduced to its element `[0]`: the
leftmost match, or `none` when `match` returns `null`. -/
def matchRes (s : JSString) : Option JSString :=
  match s with
  | [] => none
  | c :: cs =>
    match matchResAt (c :: cs) with
    | some m => some m
    | none => matchRes cs

/-- The test `/^\d{5,7}$/.test(s)`. -/
def isZipLiteral (s : JSString) : Bool :=
  s.all isDigit && decide (5 ≤ s.length) && decide (s.length ≤ 7)

/-- Whether an optional neighbouring code unit is a word character; the text
boundary counts as a non-word character. -/
def isWordAt (c : Option Nat) : Bool :=
  match c with
  | some x => isWordChar x
  | none => false

/-- The assertion `\b` between the code unit `prev` before the position and
the code unit `next` after it. -/
def wordBoundary (prev next : Option Nat) : Bool := isWordAt prev != isWordAt next

/-- One backtracking alternative of `\d{5,7}\b` at the start of `s`: exactly
`n` digits followed by a word boundary. -/
def zipTry (s : JSString) (n : Nat) : Bool :=
  (s.take n).length == n && (s.take n).all isDigit &&
    wordBoundary (s.take n).getLast? (s.drop n).head?

/-- The pattern `/\b\d{5,7}\b/` anchored at the start of `s`, whose preceding
code unit is `prev`. The greedy quantifier tries seven digits first, then six,
then five. -/
def matchZipAt (prev : Option Nat) (s : JSString) : Option JSString :=
  if wordBoundary prev s.head? then
    ([7, 6, 5].find? (zipTry s)).map (fun n => s.take n)
  else none

/-- The scan performed by `trimmed.match(/\b\d{5,7}\b/g)`. `skip` counts the
code units of the last match that still lie ahead (the scan resumes at
`lastIndex`, the end of the previous match) and `prev` is the code unit just
before the current position. -/
def scanZip (skip : Nat) (prev : Option Nat) (s : JSString) : List JSString :=
  match s with
  | [] => []
  | c :: cs =>
    match skip with
    | k + 1 => scanZip k (some c) cs
    | 0 =>
      match matchZipAt prev (c :: cs) with
      | some m => m :: scanZip (m.length - 1) (some c) cs
      | none => scanZip 0 (some c) cs

/-- The array `trimmed.match(/\b\d{5,7}\b/g)`, with `null` rendered as the
empty list. -/
def matchZipAll (s : JSString) : List JSString := scanZip 0 none s

/-- The first tier of `parseResponse`: the match of `/RES\d{5,}/` with its
first four code units removed (`resMatch[0].substring(4)`), accepted when it
passes `/^\d{5,7}$/`. -/
def taggedTier (trimmed : JSString) : Option JSString :=
  match matchRes trimmed with
  | some m =>
    let zipCode := m.drop 4
    if isZipLiteral zipCode then some zipCode else none
  | none => none

/-- The function `API.parseResponse` on a string argument. -/
def parseResponse (responseText : JSString) : List ZipRecord :=
  if responseText.isEmpty then []
  else
    let trimmed := trim responseText
    match taggedTier trimmed with
    | some zipCode => [⟨zipCode, trimmed⟩]
    | none =>
      let zipMatches := matchZipAll trimmed
      if 0 < zipMatches.length then
        zipMatches.map (fun zip => ⟨zip, trimmed⟩)
      else if isZipLiteral trimmed then
        [⟨trimmed, trimmed⟩]
      else []

/-! ### The tiers in the words of the specification -/

/-- A token `RES` immediately followed by five or more decimal digits. -/
def IsResToken (t : JSString) : Prop :=
  ∃ ds : JSString, t = lit "RES" ++ ds ∧ ds.all isDigit = true ∧ 5 ≤ ds.length

/-- An ASCII letter. -/
def isAsciiLetter (c : Nat) : Bool :=
  (decide (65 ≤ c) && decide (c ≤ 90)) || (decide (97 ≤ c) && decide (c ≤ 122))

/-- A neighbour that leaves a digit run standalone: the text boundary, or a
character that is not an ASCII letter, digit or underscore. -/
def isFreeNeighbour (c : Option Nat) : Bool :=
  match c with
  | none => true
  | some x => !(isAsciiLetter x || isDigit x || x == 95)

/-- The first `n` code units of `s` form a standalone digit run of length 5 to
7, `prev` being the code unit before `s`. -/
def isStandaloneRun (prev : Option Nat) (s : JSString) (n : Nat) : Bool :=
  decide (5 ≤ n) && decide (n ≤ 7) && (s.take n).length == n && (s.take n).all isDigit &&
    isFreeNeighbour prev && isFreeNeighbour (s.drop n).head?

/-- The standalone digit runs of length 5 to 7 that start at the head of `s`. -/
def standaloneRunsAt (prev : Option Nat) (s : JSString) : List JSString :=
  ((List.range 8).filter (isStandaloneRun prev s)).map (fun n => s.take n)

/-- The standalone digit runs of length 5 to 7 of a text, listed by starting
position; `prev` is the code unit before the text. -/
def standaloneRuns (prev : Option Nat) (s : JSString) : List JSString :=
  match s with
  | [] => []
  | c :: cs => standaloneRunsAt prev (c :: cs) ++ standaloneRuns (some c) cs

/-! ## `API.buildUrl` -/

/-- The set left unescaped by `encodeURIComponent`: ASCII letters, digits and
the marks `-` `_` `.` `!` `~` `*` `(` `)` and the apostrophe. -/
def isUriUnreserved (c : Nat) : Bool :=
  isAlnum c || c == 45 || c == 95 || c == 46 || c == 33 || c == 126 || c == 42 ||
    c == 39 || c == 40 || c == 41

/-- An upper-case hexadecimal digit. -/
def hexDigit (n : Nat) : Nat := if n < 10 then 48 + n else 55 + n

/-- The escape `%XY` of one octet. -/
def pctByte (b : Nat) : JSString := [37, hexDigit (b / 16 % 16), hexDigit (b % 16)]

/-- The UTF-8 octets of a code point. -/
def utf8Bytes (cp : Nat) : List Nat :=
  if cp < 128 then [cp]
  else if cp < 2048 then [192 + cp / 64, 128 + cp % 64]
  else if cp < 65536 then [224 + cp / 4096, 128 + cp / 64 % 64, 128 + cp % 64]
  else [240 + cp / 262144 % 8, 128 + cp / 4096 % 64, 128 + cp / 64 % 64, 128 + cp % 64]

/-- The escapes of the UTF-8 octets of a code point. -/
def pctEncode (cp : Nat) : JSString := ((utf8Bytes cp).map pctByte).flatten

/-- A leading (high) surrogate code unit. -/
def isLeadSurrogate (c : Nat) : Bool := decide (55296 ≤ c) && decide (c ≤ 56319)

/-- A trailing (low) surrogate code unit. -/
def isTrailSurrogate (c : Nat) : Bool := decide (56320 ≤ c) && decide (c ≤ 57343)

/-- The code point of a surrogate pair. -/
def surrogatePair (hi lo : Nat) : Nat := (hi - 55296) * 1024 + (lo - 56320) + 65536

/-- The built-in `encodeURIComponent` (ECMAScript `Encode`): unreserved code
units are copied, every other code point is replaced by the escapes of its
UTF-8 octets, and an unpaired surrogate raises `URIError` (`none`). -/
def encodeURIComponent (s : JSString) : Option JSString :=
  match s with
  | [] => some []
  | c :: cs =>
    if isUriUnreserved c then (encodeURIComponent cs).map (fun r => c :: r)
    else if isLeadSurrogate c then
      match cs with
      | d :: ds =>
        if isTrailSurrogate d then
          (encodeURIComponent ds).map (fun r => pctEncode (surrogatePair c d) ++ r)
        else none
      | [] => none
    else if isTrailSurrogate c then none
    else (encodeURIComponent cs).map (fun r => pctEncode c ++ r)

/-- The callback of `encodeParam` applied to one code unit of the street: a
space and the characters of `[a-zA-Z0-9]` are kept, anything else goes through
`encodeURIComponent`. -/
def encodeStreetChar (char : Nat) : Option JSString :=
  if char == 32 then some [32]
  else if isAlnum char then some [char]
  else encodeURIComponent [char]

/-- The inner function `encodeParam(str, preserveSpaces)` of `buildUrl`. -/
def encodeParam (str : JSString) (preserveSpaces : Bool) : Option JSString :=
  if preserveSpaces then (str.mapM encodeStreetChar).map List.flatten
  else encodeURIComponent str

/-- The constant `API.BASE_URL`. -/
def BASE_URL : JSString := lit "https://services.israelpost.co.il/zip_data.nsf/SearchZip"

/-- The function `API.buildUrl`; `none` stands for the `URIError` thrown by
`encodeURIComponent`. The default value of `entrance` is the empty string. -/
def buildUrl (city street houseNumber entrance : JSString) : Option JSString :=
  let trimmedCity := trim city
  let trimmedStreet := trim street
  let trimmedHouse := trim houseNumber
  let trimmedEntrance := trim entrance
  match encodeParam trimmedCity false with
  | none => none
  | some encodedCity =>
    match encodeParam trimmedStreet true with
    | none => none
    | some encodedStreet =>
      match encodeParam trimmedHouse false with
      | none => none
      | some encodedHouse =>
        match encodeParam trimmedEntrance false with
        | none => none
        | some encodedEntrance =>
          some (BASE_URL ++ lit "?OpenAgent&Location=" ++ encodedCity ++ lit "&POB=&House=" ++
            encodedHouse ++ lit "&Entrance=" ++ encodedEntrance ++ lit "&Street=" ++
            encodedStreet)

/-! ## `API.searchZipCode` -/

/-- The response object resolved by `makeRequest`. -/
structure Response where
  status : Nat
  statusText : JSString
  responseText : JSString
deriving DecidableEq, Repr

/-- The outcome of `makeRequest`: the promise is rejected (`xhr.onerror`) or
resolved with a response (`xhr.onload`). -/
inductive TransportResult where
  | networkError : TransportResult
  | response : Response → TransportResult
deriving DecidableEq, Repr

/-- The errors rethrown by `searchZipCode`, told apart by their message:
`uriError` is the `URIError` of `buildUrl`, `network` is `Network error`,
`http` is `API request failed: <status> <statusText>`, `blocked` is the
message ending in `(CAPTCHA)` and `noMatch` is the message that no postal code
was found for the address. -/
inductive SearchError where
  | uriError : SearchError
  | network : SearchError
  | http : Nat → JSString → SearchError
  | blocked : SearchError
  | noMatch : SearchError
deriving DecidableEq, Repr

deriving instance DecidableEq for Except

/-- The field `response.ok`: `xhr.status >= 200 && xhr.status < 300`. -/
def Response.ok (r : Response) : Bool := decide (200 ≤ r.status) && decide (r.status < 300)

/-- The block test of `searchZipCode` on the lower-cased body. -/
def hasBlockSignature (lowerText : JSString) : Bool :=
  includes lowerText (lit "captcha") ||
    includes lowerText (lit "shieldsquare") ||
    (includes lowerText (lit "bot") && includes lowerText (lit "blocked")) ||
    includes lowerText (lit "access denied")

/-- The function `API.searchZipCode`. The built-in `String.prototype.toLowerCase`
(Unicode case conversion, whose tables are not part of the repository) and the
transport `makeRequest` are parameters. -/
def searchZipCode (toLowerCase : JSString → JSString)
    (makeRequest : JSString → TransportResult)
    (city street houseNumber entrance : JSString) : Except SearchError (List ZipRecord) :=
  match buildUrl city street houseNumber entrance with
  | none => .error .uriError
  | some url =>
    match makeRequest url with
    | .networkError => .error .network
    | .response response =>
      let responseText := response.responseText
      if !response.ok then .error (.http response.status response.statusText)
      else
        let lowerText := toLowerCase responseText
        if hasBlockSignature lowerText then .error .blocked
        else
          let parsed := parseResponse responseText
          if parsed.length == 0 then .error .noMatch
          else .ok parsed

/-- The conversion `toLowerCase` on texts whose letters are all ASCII: `A`-`Z`
become `a`-`z`, every other code unit is kept. -/
def lowerAscii (s : JSString) : JSString :=
  s.map (fun c => if 65 ≤ c ∧ c ≤ 90 then c + 32 else c)

/-! ## `Storage.saveToHistory` -/

/-- The object stored in the history by `popup.js`. -/
structure HistoryItem where
  city : JSString
  street : JSString
  houseNumber : JSString
  entrance : JSString
  zipCodes : List ZipRecord
  timestamp : Nat
deriving DecidableEq, Repr

/-- The keys of `chrome.storage` read and written by `Storage`; `none` is a key
that was never set. -/
structure Store where
  historyEnabled : Option Bool
  maxHistoryItems : Option Nat
  searchHistory : Option (List HistoryItem)
deriving DecidableEq, Repr

/-- The function `Storage.isHistoryEnabled`: `result.historyEnabled !== false`. -/
def isHistoryEnabled (st : Store) : Bool :=
  match st.historyEnabled with
  | some false => false
  | _ => true

/-- The function `Storage.getMaxHistoryItems`: `result.maxHistoryItems || 50`. -/
def getMaxHistoryItems (st : Store) : Nat :=
  match st.maxHistoryItems with
  | some n => if n == 0 then 50 else n
  | none => 50

/-- The function `Storage.getHistory`: `result.searchHistory || []`. -/
def getHistory (st : Store) : List HistoryItem :=
  match st.searchHistory with
  | some h => h
  | none => []

/-- The function `Storage.saveToHistory`. -/
def saveToHistory (st : Store) (searchItem : HistoryItem) : Store :=
  if !isHistoryEnabled st then st
  else
    let history := getHistory st
    let maxItems := getMaxHistoryItems st
    let filtered := history.filter (fun item =>
      item.city != searchItem.city || item.street != searchItem.street ||
        item.houseNumber != searchItem.houseNumber)
    let filtered := searchItem :: filtered
    let filtered := if filtered.length > maxItems then filtered.take maxItems else filtered
    ⟨st.historyEnabled, st.maxHistoryItems, some filtered⟩

/-- The identity key of a history entry: `(city, street, houseNumber)`. -/
def identityKey (e : HistoryItem) : JSString × JSString × JSString :=
  (e.city, e.street, e.houseNumber)

/-- The identity key after trimming each field. -/
def trimmedKey (e : HistoryItem) : JSString × JSString × JSString :=
  (trim e.city, trim e.street, trim e.houseNumber)

/-- A history entry with the given key fields and timestamp, an empty entrance
and no results; used to write concrete histories. -/
def entryOf (city street houseNumber : String) (timestamp : Nat) : HistoryItem :=
  ⟨lit city, lit street, lit houseNumber, [], [], timestamp⟩

/-! ## Further definitions for `parseResponse` and `buildUrl` -/

/-- An argument of `parseResponse`: a string, or any value whose `typeof` is
not `'string'`. -/
inductive JSValue where
  | str : JSString → JSValue
  | nonString : JSValue
deriving DecidableEq, Repr

/-- The function `API.parseResponse` on an arbitrary argument: the guard
`!responseText || typeof responseText !== 'string'` returns the empty array for
every non-string value (and for the empty string, inside `parseResponse`). -/
def parseResponseValue (responseText : JSValue) : List ZipRecord :=
  match responseText with
  | .str s => parseResponse s
  | .nonString => []

/-- The parser obtained from `parseResponse` by deleting its last tier, the
test of the whole trimmed body against `/^\d{5,7}$/`. -/
def parseResponseWithoutWholeBody (responseText : JSString) : List ZipRecord :=
  if responseText.isEmpty then []
  else
    let trimmed := trim responseText
    match taggedTier trimmed with
    | some zipCode => [⟨zipCode, trimmed⟩]
    | none =>
      let zipMatches := matchZipAll trimmed
      if 0 < zipMatches.length then
        zipMatches.map (fun zip => ⟨zip, trimmed⟩)
      else []

/-- A surrogate code unit, leading or trailing. -/
def isSurrogate (c : Nat) : Bool := isLeadSurrogate c || isTrailSurrogate c

/-- The method `String.prototype.isWellFormed`: the string has no unpaired
surrogate. -/
def isWellFormed (s : JSString) : Bool :=
  match s with
  | [] => true
  | c :: cs =>
    if isLeadSurrogate c then
      match cs with
      | d :: ds => isTrailSurrogate d && isWellFormed ds
      | [] => false
    else if isTrailSurrogate c then false
    else isWellFormed cs

/-! ## Theorems -/

/-! ### Character classes -/

theorem lit_RES : lit "RES" = [82, 69, 83] := by decide

theorem isWordChar_of_isDigit {c : Nat} (h : isDigit c = true) : isWordChar c = true := by
  simp [isWordChar, isAlnum, h]

theorem isFreeNeighbour_eq (c : Option Nat) : isFreeNeighbour c = !isWordAt c := by
  cases c with
  | none => rfl
  | some x =>
    simp only [isFreeNeighbour, isWordAt, isWordChar, isAlnum, isAsciiLetter]
    cases decide (65 ≤ x) <;> cases decide (x ≤ 90) <;> cases decide (97 ≤ x) <;>
      cases decide (x ≤ 122) <;> cases isDigit x <;> cases (x == 95) <;> rfl

/-! ### The tagged tier -/

theorem takeWhile_digits_append (ds post : JSString) (hds : ds.all isDigit = true)
    (hpost : ∀ c, post.head? = some c → isDigit c = false) :
    (ds ++ post).takeWhile isDigit = ds := by
  induction ds with
  | nil =>
    cases post with
    | nil => rfl
    | cons c cs => simp [List.takeWhile, hpost c rfl]
  | cons d ds ih =>
    simp only [List.all_cons, Bool.and_eq_true] at hds
    simp [List.takeWhile, hds.1, ih hds.2]

theorem matchResAt_token (ds post : JSString) (hds : ds.all isDigit = true)
    (hlen : 5 ≤ ds.length) (hpost : ∀ c, post.head? = some c → isDigit c = false) :
    matchResAt (82 :: 69 :: 83 :: (ds ++ post)) = some (82 :: 69 :: 83 :: ds) := by
  simp [matchResAt, takeWhile_digits_append ds post hds hpost, hlen]

theorem matchResAt_some {s m : JSString} (h : matchResAt s = some m) :
    IsResToken m ∧ ∃ rest, s = m ++ rest := by
  unfold matchResAt at h
  split at h
  · rename_i rest
    simp only at h
    split at h
    · rename_i hlen
      simp only [Option.some.injEq] at h
      subst h
      refine ⟨⟨rest.takeWhile isDigit, by simp [lit_RES], ?_, hlen⟩, rest.dropWhile isDigit, ?_⟩
      · simp [List.all_eq_true]
      · simp [List.takeWhile_append_dropWhile]
    · simp at h
  · simp at h

theorem matchRes_first (pre ds post : JSString) (hds : ds.all isDigit = true)
    (hlen : 5 ≤ ds.length) (hpost : ∀ c, post.head? = some c → isDigit c = false)
    (hfirst : ∀ pre2 t post2 : JSString, pre ++ (lit "RES" ++ ds) ++ post = pre2 ++ t ++ post2 →
      IsResToken t → pre.length ≤ pre2.length) :
    matchRes (pre ++ (lit "RES" ++ ds) ++ post) = some (lit "RES" ++ ds) := by
  induction pre with
  | nil =>
    have h := matchResAt_token ds post hds hlen hpost
    simp only [lit_RES, List.nil_append, List.cons_append, List.append_assoc] at h ⊢
    simp [matchRes, h]
  | cons p pre ih =>
    have hnone : matchResAt (p :: pre ++ (lit "RES" ++ ds) ++ post) = none := by
      cases hm : matchResAt (p :: pre ++ (lit "RES" ++ ds) ++ post) with
      | none => rfl
      | some m =>
        obtain ⟨htok, rest, hrest⟩ := matchResAt_some hm
        have := hfirst [] m rest (by simpa using hrest) htok
        simp at this
    have ih2 := ih (fun pre2 t post2 heq ht => by
      have := hfirst (p :: pre2) t post2 (by simp [heq]) ht
      simpa using this)
    simp only [List.cons_append] at hnone ⊢
    rw [matchRes, hnone]
    exact ih2

theorem trim_nil : trim [] = [] := by decide

theorem isZipLiteral_iff (s : JSString) :
    isZipLiteral s = true ↔ s.all isDigit = true ∧ 5 ≤ s.length ∧ s.length ≤ 7 := by
  simp [isZipLiteral, and_assoc]

/-! ### The bare-digit tier -/

theorem digit_at_of_take {s : JSString} {n m : Nat} (hlen : (s.take m).length = m)
    (hall : (s.take m).all isDigit = true) (hnm : n < m) :
    ∃ d, (s.drop n).head? = some d ∧ isDigit d = true := by
  have hm : m ≤ s.length := by
    rw [List.length_take] at hlen
    omega
  have hn : n < s.length := by omega
  refine ⟨s[n], ?_, ?_⟩
  · rw [List.head?_drop, List.getElem?_eq_getElem hn]
  · rw [List.all_eq_true] at hall
    apply hall
    rw [List.mem_iff_getElem]
    refine ⟨n, by rw [hlen]; exact hnm, ?_⟩
    simp [List.getElem_take]

theorem isStandaloneRun_unique {prev : Option Nat} {s : JSString} {n m : Nat}
    (hn : isStandaloneRun prev s n = true) (hm : isStandaloneRun prev s m = true) : n = m := by
  simp only [isStandaloneRun, Bool.and_eq_true, decide_eq_true_eq, beq_iff_eq] at hn hm
  obtain ⟨⟨⟨⟨⟨_, _⟩, hln⟩, han⟩, _⟩, hfn⟩ := hn
  obtain ⟨⟨⟨⟨⟨_, _⟩, hlm⟩, ham⟩, _⟩, hfm⟩ := hm
  rcases Nat.lt_trichotomy n m with h | h | h
  · obtain ⟨d, hd, hdig⟩ := digit_at_of_take hlm ham h
    rw [hd] at hfn
    simp [isFreeNeighbour, hdig] at hfn
  · exact h
  · obtain ⟨d, hd, hdig⟩ := digit_at_of_take hln han h
    rw [hd] at hfm
    simp [isFreeNeighbour, hdig] at hfm

theorem zipTry_eq_standalone (prev : Option Nat) (s : JSString) (n : Nat) (h5 : 5 ≤ n)
    (h7 : n ≤ 7) :
    (wordBoundary prev s.head? && zipTry s n) = isStandaloneRun prev s n := by
  simp only [zipTry, isStandaloneRun, h5, h7, decide_True, Bool.true_and,
    isFreeNeighbour_eq]
  by_cases hlen : (s.take n).length = n
  · by_cases hall : (s.take n).all isDigit = true
    · obtain ⟨d, hd, hdig⟩ := digit_at_of_take (n := 0) hlen hall (by omega)
      obtain ⟨e, he, hedig⟩ : ∃ e, (s.take n).getLast? = some e ∧ isDigit e = true := by
        cases hl : (s.take n).getLast? with
        | none =>
          rw [List.getLast?_eq_none_iff] at hl
          rw [hl] at hlen
          simp at hlen
          omega
        | some e =>
          refine ⟨e, rfl, ?_⟩
          rw [List.all_eq_true] at hall
          exact hall e (List.mem_of_getLast?_eq_some hl)
      simp only [List.drop_zero] at hd
      simp [hlen, hall, hd, he, wordBoundary, isWordAt, isWordChar_of_isDigit hdig,
        isWordChar_of_isDigit hedig]
    · simp [hall]
  · have hb : ((s.take n).length == n) = false := by simpa using hlen
    simp only [hb, Bool.false_and, Bool.and_false]

theorem standaloneRunsAt_eq_matchZipAt (prev : Option Nat) (s : JSString) :
    standaloneRunsAt prev s = (matchZipAt prev s).toList := by
  have hr : List.range 8 = [0, 1, 2, 3, 4, 5, 6, 7] := by decide
  have h0 : ∀ n, n < 5 → isStandaloneRun prev s n = false := by
    intro n hn
    have : decide (5 ≤ n) = false := by simpa using hn
    simp [isStandaloneRun, this]
  have e5 := zipTry_eq_standalone prev s 5 (by omega) (by omega)
  have e6 := zipTry_eq_standalone prev s 6 (by omega) (by omega)
  have e7 := zipTry_eq_standalone prev s 7 (by omega) (by omega)
  have u56 : isStandaloneRun prev s 5 = true → isStandaloneRun prev s 6 = true → False :=
    fun a b => absurd (isStandaloneRun_unique a b) (by omega)
  have u57 : isStandaloneRun prev s 5 = true → isStandaloneRun prev s 7 = true → False :=
    fun a b => absurd (isStandaloneRun_unique a b) (by omega)
  have u67 : isStandaloneRun prev s 6 = true → isStandaloneRun prev s 7 = true → False :=
    fun a b => absurd (isStandaloneRun_unique a b) (by omega)
  simp only [standaloneRunsAt, matchZipAt, hr, List.filter_cons, h0 0 (by omega),
    h0 1 (by omega), h0 2 (by omega), h0 3 (by omega), h0 4 (by omega), List.filter_nil,
    List.find?_cons, List.find?_nil]
  cases hwb : wordBoundary prev s.head? with
  | false =>
    rw [hwb] at e5 e6 e7
    simp only [Bool.false_and] at e5 e6 e7
    simp [← e5, ← e6, ← e7]
  | true =>
    rw [hwb] at e5 e6 e7
    simp only [Bool.true_and] at e5 e6 e7
    rw [e5, e6, e7]
    cases h5 : isStandaloneRun prev s 5 <;> cases h6 : isStandaloneRun prev s 6 <;>
      cases h7 : isStandaloneRun prev s 7 <;> simp_all

theorem matchZipAt_some {prev : Option Nat} {s m : JSString} (h : matchZipAt prev s = some m) :
    ∃ n, 5 ≤ n ∧ m = s.take n ∧ m.length = n ∧ m.all isDigit = true := by
  unfold matchZipAt at h
  split at h
  · simp only [Option.map_eq_some'] at h
    obtain ⟨n, hfind, hm⟩ := h
    have hmem := List.mem_of_find?_eq_some hfind
    have hp := List.find?_some hfind
    simp only [zipTry, Bool.and_eq_true, beq_iff_eq] at hp
    refine ⟨n, ?_, hm.symm, by rw [← hm]; exact hp.1.1, by rw [← hm]; exact hp.1.2⟩
    simp only [List.mem_cons, List.mem_singleton, List.not_mem_nil, or_false] at hmem
    omega
  · simp at h

theorem standaloneRunsAt_after_word (prev : Option Nat) (s : JSString)
    (h : isWordAt prev = true) : standaloneRunsAt prev s = [] := by
  have hp : ∀ n, isStandaloneRun prev s n = false := by
    intro n
    simp [isStandaloneRun, isFreeNeighbour_eq, h]
  simp [standaloneRunsAt, hp]

theorem scanZip_eq_standaloneRuns (s : JSString) :
    ∀ (skip : Nat) (prev : Option Nat), skip ≤ s.length → (s.take skip).all isDigit = true →
      (0 < skip → isWordAt prev = true) → scanZip skip prev s = standaloneRuns prev s := by
  induction s with
  | nil => intro skip prev _ _ _; simp [scanZip, standaloneRuns]
  | cons c cs ih =>
    intro skip prev hlen hall hprev
    cases skip with
    | succ k =>
      simp only [List.take_succ_cons, List.all_cons, Bool.and_eq_true] at hall
      simp only [List.length_cons, Nat.add_le_add_iff_right] at hlen
      rw [scanZip, standaloneRuns, standaloneRunsAt_after_word prev _ (hprev (by omega)),
        List.nil_append]
      exact ih k (some c) hlen hall.2 (fun _ => isWordChar_of_isDigit hall.1)
    | zero =>
      rw [scanZip, standaloneRuns, standaloneRunsAt_eq_matchZipAt]
      cases hm : matchZipAt prev (c :: cs) with
      | none =>
        simp only [Option.toList, List.nil_append]
        exact ih 0 (some c) (by omega) (by simp) (by omega)
      | some m =>
        obtain ⟨n, h5, hmeq, hmlen, hmall⟩ := matchZipAt_some hm
        obtain ⟨j, rfl⟩ : ∃ j, n = j + 1 := ⟨n - 1, by omega⟩
        simp only [List.take_succ_cons] at hmeq
        subst hmeq
        simp only [List.length_cons, Nat.add_right_cancel_iff] at hmlen
        simp only [List.all_cons, Bool.and_eq_true] at hmall
        simp only [Option.toList, List.singleton_append, List.length_cons,
          Nat.add_sub_cancel, List.cons.injEq, true_and]
        rw [hmlen]
        refine ih j (some c) ?_ hmall.2 (fun _ => isWordChar_of_isDigit hmall.1)
        rw [List.length_take] at hmlen
        omega

theorem matchZipAll_eq_standaloneRuns (s : JSString) :
    matchZipAll s = standaloneRuns none s :=
  scanZip_eq_standaloneRuns s 0 none (by omega) (by simp) (by omega)

theorem standaloneRuns_of_isZipLiteral {s : JSString} (h : isZipLiteral s = true) :
    standaloneRuns none s ≠ [] := by
  rw [isZipLiteral_iff] at h
  obtain ⟨hall, h5, h7⟩ := h
  cases s with
  | nil => simp at h5
  | cons c cs =>
    have hrun : isStandaloneRun none (c :: cs) (c :: cs).length = true := by
      simp only [isStandaloneRun, List.take_length, List.drop_length, List.head?_nil,
        isFreeNeighbour, hall, h5, h7, decide_True, beq_self_eq_true, Bool.and_self]
    have hmem : (c :: cs).length ∈ (List.range 8).filter (isStandaloneRun none (c :: cs)) := by
      rw [List.mem_filter, List.mem_range]
      exact ⟨by omega, hrun⟩
    intro hnil
    rw [standaloneRuns, List.append_eq_nil, standaloneRunsAt, List.map_eq_nil_iff] at hnil
    rw [hnil.1] at hmem
    simp at hmem

/-! ### Claims on `parseResponse` -/

/-- C1 (as stated, refuted): the body `RES0123456` carries the token `RES`
followed by the seven-digit run `0123456`, yet the sole record returned by
`parseResponse` has code `123456`: `substring(4)` also removes the first digit
of the run. -/
theorem parseResponse_tagged_keeps_whole_run_refuted :
    trim (lit "RES0123456") = [] ++ (lit "RES" ++ lit "0123456") ++ [] ∧
      (lit "0123456").all isDigit = true ∧ (lit "0123456").length = 7 ∧
      parseResponse (lit "RES0123456") = [⟨lit "123456", lit "RES0123456"⟩] ∧
      (parseResponse (lit "RES0123456")).map ZipRecord.zipCode ≠ [lit "0123456"] := by
  decide

/-- C1 (amended): when the trimmed body contains a token `RES` followed by a
run `ds` of five or more digits, the first such token is the match of the tagged
tier; the code is that token without its first four code units, that is the
digit run without its first digit, and whenever this remainder is 5 to 7 digits
long `parseResponse` returns exactly one record, with that code, whatever else
the body contains. -/
theorem parseResponse_tagged (body pre ds post : JSString)
    (hbody : trim body = pre ++ (lit "RES" ++ ds) ++ post)
    (hds : ds.all isDigit = true) (hlen : 5 ≤ ds.length)
    (hpost : ∀ c, post.head? = some c → isDigit c = false)
    (hfirst : ∀ pre2 t post2 : JSString, trim body = pre2 ++ t ++ post2 →
      IsResToken t → pre.length ≤ pre2.length)
    (hcode : 5 ≤ (ds.drop 1).length ∧ (ds.drop 1).length ≤ 7) :
    matchRes (trim body) = some (lit "RES" ++ ds) ∧
      (lit "RES" ++ ds).drop 4 = ds.drop 1 ∧
      parseResponse body = [⟨ds.drop 1, trim body⟩] := by
  have hm : matchRes (trim body) = some (lit "RES" ++ ds) := by
    rw [hbody]
    exact matchRes_first pre ds post hds hlen hpost (fun pre2 t post2 heq ht =>
      hfirst pre2 t post2 (hbody.trans heq) ht)
  have hdrop : (lit "RES" ++ ds).drop 4 = ds.drop 1 := by
    simp [lit_RES]
  have hzip : isZipLiteral (ds.drop 1) = true := by
    rw [isZipLiteral_iff]
    refine ⟨?_, hcode.1, hcode.2⟩
    rw [List.all_eq_true] at hds ⊢
    exact fun x hx => hds x (List.mem_of_mem_drop hx)
  have hne : body.isEmpty = false := by
    cases body with
    | nil =>
      rw [trim_nil] at hbody
      simp [lit_RES] at hbody
    | cons c cs => rfl
  have htier : taggedTier (trim body) = some (ds.drop 1) := by
    simp only [taggedTier, hm, hdrop, hzip, if_true]
  refine ⟨hm, hdrop, ?_⟩
  simp only [parseResponse, hne, htier, Bool.false_eq_true, if_false]

/-- Witness for `parseResponse_tagged`: the body ` xRES0123456.` . -/
theorem parseResponse_tagged_witness :
    parseResponse (lit " xRES0123456. ") = [⟨lit "123456", lit "xRES0123456."⟩] :=
  (parseResponse_tagged (lit " xRES0123456. ") (lit "x") (lit "0123456") (lit ".")
    (by decide) (by decide) (by decide) (by decide)
    (by
      intro pre2 t post2 heq ht
      cases pre2 with
      | nil =>
        obtain ⟨ds, rfl, _, _⟩ := ht
        have h : trim (lit " xRES0123456. ") = lit "xRES0123456." := by decide
        rw [h] at heq
        simp [lit] at heq
      | cons a as => simp [lit])
    (by decide)).2.2

/-- C2 (as stated, refuted): in the body `RES12345678` the run that follows
`RES` has eight digits and so fails the 5 to 7 digit filter, and the text has no
standalone digit run; yet `parseResponse` returns a record, with code `2345678`:
the filter is applied to the run without its first digit. -/
theorem parseResponse_bare_digits_tagged_run_refuted :
    trim (lit "RES12345678") = [] ++ (lit "RES" ++ lit "12345678") ++ [] ∧
      (lit "12345678").all isDigit = true ∧ ¬ (lit "12345678").length ≤ 7 ∧
      standaloneRuns none (trim (lit "RES12345678")) = [] ∧
      parseResponse (lit "RES12345678") = [⟨lit "2345678", lit "RES12345678"⟩] := by
  decide

/-- C2 (amended): when the tagged tier accepts no result (the pattern
`RES` plus five or more digits has no match, or the match without its first
four code units fails the 5 to 7 digit filter), `parseResponse` returns one
record per standalone digit run of length 5 to 7 of the trimmed text, in order
of appearance, repeated codes kept, and no other record; each record carries the
trimmed text as raw source. -/
theorem parseResponse_bare_digits (body : JSString)
    (htag : matchRes (trim body) = none ∨
      ∃ m, matchRes (trim body) = some m ∧ isZipLiteral (m.drop 4) = false) :
    parseResponse body =
      (standaloneRuns none (trim body)).map (fun zip => ⟨zip, trim body⟩) := by
  have htier : taggedTier (trim body) = none := by
    rcases htag with h | ⟨m, h, hz⟩
    · simp only [taggedTier, h]
    · simp only [taggedTier, h, hz, Bool.false_eq_true, if_false]
  cases body with
  | nil => simp [parseResponse, trim_nil, standaloneRuns]
  | cons c cs =>
    simp only [parseResponse, List.isEmpty_cons, Bool.false_eq_true, if_false, htier,
      matchZipAll_eq_standaloneRuns]
    split
    · rfl
    · rename_i hlen
      have hnil : standaloneRuns none (trim (c :: cs)) = [] := by
        rw [← List.length_eq_zero]
        omega
      have hlit : isZipLiteral (trim (c :: cs)) = false := by
        cases h : isZipLiteral (trim (c :: cs)) with
        | false => rfl
        | true => exact absurd hnil (standaloneRuns_of_isZipLiteral h)
      simp [hnil, hlit]

/-- Witness for `parseResponse_bare_digits`: the body
`the code is 3000000 thanks` yields exactly one record, with code `3000000`. -/
theorem parseResponse_bare_digits_witness :
    matchRes (trim (lit "the code is 3000000 thanks")) = none ∧
      parseResponse (lit "the code is 3000000 thanks") =
        [⟨lit "3000000", lit "the code is 3000000 thanks"⟩] :=
  ⟨by decide, (parseResponse_bare_digits (lit "the code is 3000000 thanks")
    (Or.inl (by decide))).trans (by decide)⟩

/-! ### URL encoding -/

theorem hexDigit_alnum (n : Nat) (h : n < 16) : isAlnum (hexDigit n) = true := by
  interval_cases n <;> decide

theorem hexDigit_ne_pct (n : Nat) : hexDigit n ≠ 37 := by
  unfold hexDigit
  split <;> omega

theorem isUriUnreserved_of_isAlnum {c : Nat} (h : isAlnum c = true) :
    isUriUnreserved c = true := by
  simp [isUriUnreserved, h]

theorem pctByte_safe (b x : Nat) (hx : x ∈ pctByte b) :
    x = 37 ∨ isUriUnreserved x = true := by
  simp only [pctByte, List.mem_cons, List.mem_singleton, List.not_mem_nil, or_false] at hx
  rcases hx with h | h | h
  · exact Or.inl h
  · exact Or.inr (h ▸ isUriUnreserved_of_isAlnum (hexDigit_alnum _ (Nat.mod_lt _ (by omega))))
  · exact Or.inr (h ▸ isUriUnreserved_of_isAlnum (hexDigit_alnum _ (Nat.mod_lt _ (by omega))))

theorem pctEncode_safe (cp x : Nat) (hx : x ∈ pctEncode cp) :
    x = 37 ∨ isUriUnreserved x = true := by
  simp only [pctEncode, List.mem_flatten, List.mem_map] at hx
  obtain ⟨l, ⟨b, _, rfl⟩, hxl⟩ := hx
  exact pctByte_safe b x hxl

theorem encodeURIComponent_safe_aux (n : Nat) :
    ∀ s : JSString, s.length ≤ n → ∀ out, encodeURIComponent s = some out →
      ∀ x ∈ out, x = 37 ∨ isUriUnreserved x = true := by
  induction n with
  | zero =>
    intro s hs out h x hx
    have : s = [] := List.length_eq_zero.1 (by omega)
    subst this
    simp only [encodeURIComponent, Option.some.injEq] at h
    subst h
    simp at hx
  | succ n ih =>
    intro s hs out h x hx
    cases s with
    | nil =>
      simp only [encodeURIComponent, Option.some.injEq] at h
      subst h
      simp at hx
    | cons c cs =>
      simp only [List.length_cons, Nat.add_le_add_iff_right] at hs
      rw [encodeURIComponent.eq_def] at h
      simp only at h
      by_cases hc : isUriUnreserved c = true
      · simp only [hc, if_true, Option.map_eq_some'] at h
        obtain ⟨r, hr, rfl⟩ := h
        rcases List.mem_cons.1 hx with h1 | h1
        · exact Or.inr (h1 ▸ hc)
        · exact ih cs hs r hr x h1
      · by_cases hl : isLeadSurrogate c = true
        · simp only [hc, hl, if_true, Bool.false_eq_true, if_false] at h
          cases cs with
          | nil => simp at h
          | cons d ds =>
            by_cases hd : isTrailSurrogate d = true
            · simp only [hd, if_true, Option.map_eq_some'] at h
              obtain ⟨r, hr, rfl⟩ := h
              rcases List.mem_append.1 hx with h1 | h1
              · exact pctEncode_safe _ x h1
              · exact ih ds (by simp only [List.length_cons] at hs; omega) r hr x h1
            · simp [hd] at h
        · by_cases ht : isTrailSurrogate c = true
          · simp [hc, hl, ht] at h
          · simp only [hc, hl, ht, Bool.false_eq_true, if_false, Option.map_eq_some'] at h
            obtain ⟨r, hr, rfl⟩ := h
            rcases List.mem_append.1 hx with h1 | h1
            · exact pctEncode_safe _ x h1
            · exact ih cs hs r hr x h1

theorem encodeURIComponent_safe {s out : JSString} (h : encodeURIComponent s = some out) :
    ∀ x ∈ out, x = 37 ∨ isUriUnreserved x = true :=
  encodeURIComponent_safe_aux s.length s (Nat.le_refl _) out h

theorem lit_pct20 : lit "%20" = [37, 50, 48] := by decide

theorem not_pct20_cons {a : Nat} {l : JSString} (ha : a ≠ 37)
    (h : ¬ lit "%20" <:+: l) : ¬ lit "%20" <:+: a :: l := by
  rw [List.infix_cons_iff, lit_pct20, List.cons_prefix_cons]
  rintro (⟨h1, _⟩ | h1)
  · exact ha h1.symm
  · exact h (lit_pct20 ▸ h1)

theorem not_pct20_pctByte {b : Nat} {l : JSString} (hb : b % 256 ≠ 32)
    (h : ¬ lit "%20" <:+: l) : ¬ lit "%20" <:+: pctByte b ++ l := by
  have h2 : ¬ lit "%20" <:+: hexDigit (b / 16 % 16) :: hexDigit (b % 16) :: l :=
    not_pct20_cons (hexDigit_ne_pct _) (not_pct20_cons (hexDigit_ne_pct _) h)
  simp only [pctByte, List.cons_append, List.nil_append]
  rw [List.infix_cons_iff]
  rintro (h1 | h1)
  · rw [lit_pct20, List.cons_prefix_cons, List.cons_prefix_cons, List.cons_prefix_cons] at h1
    obtain ⟨_, e1, e2, _⟩ := h1
    unfold hexDigit at e1 e2
    split at e1 <;> split at e2 <;> omega
  · exact h2 h1

theorem not_pct20_pctBytes (bytes : List Nat) {l : JSString}
    (hb : ∀ b ∈ bytes, b % 256 ≠ 32) (h : ¬ lit "%20" <:+: l) :
    ¬ lit "%20" <:+: (bytes.map pctByte).flatten ++ l := by
  induction bytes with
  | nil => simpa using h
  | cons b bs ih =>
    simp only [List.map_cons, List.flatten_cons, List.append_assoc]
    exact not_pct20_pctByte (hb b (List.mem_cons_self _ _))
      (ih (fun x hx => hb x (List.mem_cons_of_mem _ hx)))

theorem utf8Bytes_ne_space {cp : Nat} (h : cp ≠ 32) : ∀ b ∈ utf8Bytes cp, b % 256 ≠ 32 := by
  intro b hb
  unfold utf8Bytes at hb
  split at hb
  · simp only [List.mem_singleton] at hb
    omega
  · split at hb
    · simp only [List.mem_cons, List.mem_singleton, List.not_mem_nil, or_false] at hb
      omega
    · split at hb
      · simp only [List.mem_cons, List.mem_singleton, List.not_mem_nil, or_false] at hb
        omega
      · simp only [List.mem_cons, List.mem_singleton, List.not_mem_nil, or_false] at hb
        omega

theorem encodeURIComponent_single {c : Nat} {p : JSString}
    (h : encodeURIComponent [c] = some p) :
    (isUriUnreserved c = true ∧ p = [c]) ∨ (isUriUnreserved c = false ∧ p = pctEncode c) := by
  rw [encodeURIComponent.eq_def] at h
  simp only [encodeURIComponent] at h
  by_cases hc : isUriUnreserved c = true
  · left
    simp only [hc, if_true, Option.map_some', Option.some.injEq] at h
    exact ⟨hc, h.symm⟩
  · right
    by_cases hl : isLeadSurrogate c = true
    · simp [hc, hl] at h
    · by_cases ht : isTrailSurrogate c = true
      · simp [hc, hl, ht] at h
      · simp only [hc, hl, ht, Bool.false_eq_true, if_false, Option.map_some',
          Option.some.injEq, List.append_nil] at h
        exact ⟨by simpa using hc, h.symm⟩

theorem encodeStreetChar_uri {c : Nat} {p : JSString} (hc : c ≠ 32)
    (h : encodeStreetChar c = some p) : encodeURIComponent [c] = some p := by
  unfold encodeStreetChar at h
  have h32 : (c == 32) = false := by simpa using hc
  simp only [h32, Bool.false_eq_true, if_false] at h
  split at h
  · rename_i ha
    simp only [Option.some.injEq] at h
    subst h
    rw [encodeURIComponent.eq_def]
    simp [isUriUnreserved_of_isAlnum ha, encodeURIComponent]
  · exact h

theorem encodeStreetChar_safe {c : Nat} {p : JSString} (h : encodeStreetChar c = some p) :
    ∀ x ∈ p, x = 32 ∨ x = 37 ∨ isUriUnreserved x = true := by
  intro x hx
  by_cases hc : c = 32
  · subst hc
    simp only [encodeStreetChar, beq_self_eq_true, if_true, Option.some.injEq] at h
    subst h
    exact Or.inl (by simpa using hx)
  · exact Or.inr (encodeURIComponent_safe (encodeStreetChar_uri hc h) x hx)

theorem encodeStreetChar_not_pct20 {c : Nat} {p l : JSString}
    (h : encodeStreetChar c = some p) (hl : ¬ lit "%20" <:+: l) :
    ¬ lit "%20" <:+: p ++ l := by
  by_cases hc : c = 32
  · subst hc
    simp only [encodeStreetChar, beq_self_eq_true, if_true, Option.some.injEq] at h
    subst h
    exact not_pct20_cons (by omega) hl
  · rcases encodeURIComponent_single (encodeStreetChar_uri hc h) with ⟨hu, rfl⟩ | ⟨_, rfl⟩
    · refine not_pct20_cons ?_ hl
      rintro rfl
      simp [isUriUnreserved, isAlnum, isDigit] at hu
    · exact not_pct20_pctBytes _ (utf8Bytes_ne_space hc) hl

theorem space_not_escape {x : Nat} (h : x = 37 ∨ isUriUnreserved x = true) : x ≠ 32 := by
  rintro rfl
  rcases h with h | h
  · omega
  · simp [isUriUnreserved, isAlnum, isDigit] at h

theorem encodeStreet_parts (str : JSString) :
    ∀ parts, str.mapM encodeStreetChar = some parts →
      List.Forall₂ (fun c part =>
          if c = 32 then part = [32] else encodeURIComponent [c] = some part ∧ 32 ∉ part)
        str parts ∧
      (∀ x ∈ parts.flatten, x = 32 ∨ x = 37 ∨ isUriUnreserved x = true) ∧
      ¬ lit "%20" <:+: parts.flatten ∧
      parts.flatten.count 32 = str.count 32 := by
  induction str with
  | nil =>
    intro parts h
    rw [List.mapM_nil] at h
    have : parts = [] := by simpa using h.symm
    subst this
    refine ⟨List.Forall₂.nil, by simp, ?_, by simp⟩
    rw [lit_pct20]
    simp
  | cons c cs ih =>
    intro parts h
    rw [List.mapM_cons] at h
    simp only [Option.bind_eq_bind, Option.pure_def, Option.bind_eq_some] at h
    obtain ⟨p, hp, ps, hps, heq⟩ := h
    have hparts : parts = p :: ps := by simpa using heq.symm
    subst hparts
    obtain ⟨hrel, hsafe, hpct, hcount⟩ := ih ps hps
    have hpart : if c = 32 then p = [32] else encodeURIComponent [c] = some p ∧ 32 ∉ p := by
      by_cases hc : c = 32
      · subst hc
        simp only [encodeStreetChar, beq_self_eq_true, if_true, Option.some.injEq] at hp
        simp [hp]
      · simp only [hc, if_false]
        refine ⟨encodeStreetChar_uri hc hp, fun hmem => ?_⟩
        exact space_not_escape (encodeURIComponent_safe (encodeStreetChar_uri hc hp) 32 hmem) rfl
    refine ⟨List.Forall₂.cons hpart hrel, ?_, ?_, ?_⟩
    · intro x hx
      simp only [List.flatten_cons, List.mem_append] at hx
      rcases hx with hx | hx
      · exact encodeStreetChar_safe hp x hx
      · exact hsafe x hx
    · simp only [List.flatten_cons]
      exact encodeStreetChar_not_pct20 hp hpct
    · simp only [List.flatten_cons, List.count_append, hcount, List.count_cons]
      by_cases hc : c = 32
      · subst hc
        simp only [if_true] at hpart
        subst hpart
        simp
        omega
      · simp only [hc, if_false] at hpart
        have h0 : p.count 32 = 0 := List.count_eq_zero.2 hpart.2
        have hne : (c == 32) = false := by simpa using hc
        simp [h0, hne]

theorem buildUrl_some {city street houseNumber entrance url : JSString}
    (h : buildUrl city street houseNumber entrance = some url) :
    ∃ C S H E, encodeParam (trim city) false = some C ∧
      encodeParam (trim street) true = some S ∧
      encodeParam (trim houseNumber) false = some H ∧
      encodeParam (trim entrance) false = some E ∧
      url = BASE_URL ++ lit "?OpenAgent&Location=" ++ C ++ lit "&POB=&House=" ++ H ++
        lit "&Entrance=" ++ E ++ lit "&Street=" ++ S := by
  unfold buildUrl at h
  simp only at h
  split at h
  · simp at h
  · rename_i C hC
    split at h
    · simp at h
    · rename_i S hS
      split at h
      · simp at h
      · rename_i H hH
        split at h
        · simp at h
        · rename_i E hE
          simp only [Option.some.injEq] at h
          exact ⟨C, S, H, E, hC, hS, hH, hE, h.symm⟩

/-! ### Claims on `buildUrl` -/

/-- C3: whenever `buildUrl` returns a URL, the street value `S` (the text
after `&Street=`, which holds no `&`) is the concatenation of one piece per code
unit of the trimmed street: a space gives the literal space, every other code
unit gives what `encodeURIComponent` renders for it, which holds no space. So
`S` has as many spaces as the trimmed street, in the same places among the
encoded characters, and contains neither `%20` nor `+`. -/
theorem buildUrl_street_keeps_spaces (city street houseNumber entrance url : JSString)
    (h : buildUrl city street houseNumber entrance = some url) :
    ∃ pre S parts, url = pre ++ lit "&Street=" ++ S ∧ 38 ∉ S ∧ S = parts.flatten ∧
      List.Forall₂ (fun c part =>
          if c = 32 then part = [32] else encodeURIComponent [c] = some part ∧ 32 ∉ part)
        (trim street) parts ∧
      S.count 32 = (trim street).count 32 ∧ ¬ lit "%20" <:+: S ∧ 43 ∉ S := by
  obtain ⟨C, S, H, E, _, hS, _, _, hurl⟩ := buildUrl_some h
  simp only [encodeParam, if_true, Option.map_eq_some'] at hS
  obtain ⟨parts, hparts, rfl⟩ := hS
  obtain ⟨hrel, hsafe, hpct, hcount⟩ := encodeStreet_parts (trim street) parts hparts
  refine ⟨_, parts.flatten, parts, hurl, ?_, rfl, hrel, hcount, hpct, ?_⟩
  · intro hmem
    rcases hsafe 38 hmem with h1 | h1 | h1
    · omega
    · omega
    · simp [isUriUnreserved, isAlnum, isDigit] at h1
  · intro hmem
    rcases hsafe 43 hmem with h1 | h1 | h1
    · omega
    · omega
    · simp [isUriUnreserved, isAlnum, isDigit] at h1

/-- Witness for `buildUrl_street_keeps_spaces`: the street ` Ben  Gurion+1 `. -/
theorem buildUrl_street_keeps_spaces_witness :
    buildUrl (lit "Haifa") (lit " Ben  Gurion+1 ") (lit "7") (lit "A") =
        some (BASE_URL ++ lit "?OpenAgent&Location=Haifa&POB=&House=7&Entrance=A" ++
          lit "&Street=Ben  Gurion%2B1") ∧
      ∃ pre S parts, BASE_URL ++ lit "?OpenAgent&Location=Haifa&POB=&House=7&Entrance=A" ++
          lit "&Street=Ben  Gurion%2B1" = pre ++ lit "&Street=" ++ S ∧ 38 ∉ S ∧
        S = parts.flatten ∧
        List.Forall₂ (fun c part =>
            if c = 32 then part = [32] else encodeURIComponent [c] = some part ∧ 32 ∉ part)
          (trim (lit " Ben  Gurion+1 ")) parts ∧
        S.count 32 = (trim (lit " Ben  Gurion+1 ")).count 32 ∧ ¬ lit "%20" <:+: S ∧ 43 ∉ S :=
  ⟨by decide, buildUrl_street_keeps_spaces (lit "Haifa") (lit " Ben  Gurion+1 ") (lit "7")
    (lit "A") _ (by decide)⟩

theorem splitOn_amp_step (seg rest : JSString) (hseg : 38 ∉ seg) :
    (seg ++ 38 :: rest).splitOn 38 = seg :: rest.splitOn 38 := by
  unfold List.splitOn
  exact List.splitOnP_first _ seg (fun x hx => by
    simp only [beq_iff_eq]
    rintro rfl
    exact hseg hx) 38 (by simp) rest

theorem splitOn_amp_last (seg : JSString) (hseg : 38 ∉ seg) : seg.splitOn 38 = [seg] := by
  unfold List.splitOn
  exact List.splitOnP_eq_single _ seg (fun x hx => by
    simp only [beq_iff_eq]
    rintro rfl
    exact hseg hx)

theorem escape_not_delim {x : Nat} (h : x = 32 ∨ x = 37 ∨ isUriUnreserved x = true) :
    x ≠ 38 ∧ x ≠ 61 := by
  constructor
  · rintro rfl
    rcases h with h | h | h
    · omega
    · omega
    · simp [isUriUnreserved, isAlnum, isDigit] at h
  · rintro rfl
    rcases h with h | h | h
    · omega
    · omega
    · simp [isUriUnreserved, isAlnum, isDigit] at h

theorem not_amp_append {a b : JSString} (ha : 38 ∉ a) (hb : 38 ∉ b) : 38 ∉ a ++ b := by
  simp [ha, hb]

/-- C4: whenever `buildUrl` returns a URL, it is `BASE_URL` followed by
`?OpenAgent&Location=C&POB=&House=H&Entrance=E&Street=S`, where `C`, `H`, `E`
are the URI-component encodings of the trimmed city, house number and entrance
and `S` is the encoded trimmed street; none of them holds `&` or `=`, so
splitting the query string at `&` gives exactly the six parameters OpenAgent,
Location, POB, House, Entrance, Street in that order. -/
theorem buildUrl_parameter_order (city street houseNumber entrance url : JSString)
    (h : buildUrl city street houseNumber entrance = some url) :
    ∃ C H E S query, encodeURIComponent (trim city) = some C ∧
      encodeURIComponent (trim houseNumber) = some H ∧
      encodeURIComponent (trim entrance) = some E ∧
      encodeParam (trim street) true = some S ∧
      url = BASE_URL ++ lit "?OpenAgent&Location=" ++ C ++ lit "&POB=&House=" ++ H ++
        lit "&Entrance=" ++ E ++ lit "&Street=" ++ S ∧
      (∀ x ∈ C ++ H ++ E ++ S, x ≠ 38 ∧ x ≠ 61) ∧
      url = BASE_URL ++ lit "?" ++ query ∧
      query.splitOn 38 = [lit "OpenAgent", lit "Location=" ++ C, lit "POB=", lit "House=" ++ H,
        lit "Entrance=" ++ E, lit "Street=" ++ S] := by
  obtain ⟨C, S, H, E, hC, hS, hH, hE, hurl⟩ := buildUrl_some h
  have hC2 : encodeURIComponent (trim city) = some C := by simpa [encodeParam] using hC
  have hH2 : encodeURIComponent (trim houseNumber) = some H := by simpa [encodeParam] using hH
  have hE2 : encodeURIComponent (trim entrance) = some E := by simpa [encodeParam] using hE
  have hSsafe : ∀ x ∈ S, x = 32 ∨ x = 37 ∨ isUriUnreserved x = true := by
    have hS3 := hS
    simp only [encodeParam, if_true, Option.map_eq_some'] at hS3
    obtain ⟨parts, hparts, rfl⟩ := hS3
    exact (encodeStreet_parts (trim street) parts hparts).2.1
  have hCs : ∀ x ∈ C, x ≠ 38 ∧ x ≠ 61 :=
    fun x hx => escape_not_delim (Or.inr (encodeURIComponent_safe hC2 x hx))
  have hHs : ∀ x ∈ H, x ≠ 38 ∧ x ≠ 61 :=
    fun x hx => escape_not_delim (Or.inr (encodeURIComponent_safe hH2 x hx))
  have hEs : ∀ x ∈ E, x ≠ 38 ∧ x ≠ 61 :=
    fun x hx => escape_not_delim (Or.inr (encodeURIComponent_safe hE2 x hx))
  have hSs : ∀ x ∈ S, x ≠ 38 ∧ x ≠ 61 := fun x hx => escape_not_delim (hSsafe x hx)
  refine ⟨C, H, E, S, lit "OpenAgent" ++ 38 :: ((lit "Location=" ++ C) ++ 38 :: (lit "POB=" ++
    38 :: ((lit "House=" ++ H) ++ 38 :: ((lit "Entrance=" ++ E) ++ 38 :: (lit "Street=" ++ S))))),
    hC2, hH2, hE2, hS, hurl, ?_, ?_, ?_⟩
  · intro x hx
    simp only [List.mem_append] at hx
    rcases hx with ((hx | hx) | hx) | hx
    · exact hCs x hx
    · exact hHs x hx
    · exact hEs x hx
    · exact hSs x hx
  · rw [hurl]
    simp [lit]
  · have n1 : (38 : Nat) ∉ lit "OpenAgent" := by decide
    have n2 : (38 : Nat) ∉ lit "Location=" ++ C :=
      not_amp_append (by decide) (fun hx => (hCs 38 hx).1 rfl)
    have n3 : (38 : Nat) ∉ lit "POB=" := by decide
    have n4 : (38 : Nat) ∉ lit "House=" ++ H :=
      not_amp_append (by decide) (fun hx => (hHs 38 hx).1 rfl)
    have n5 : (38 : Nat) ∉ lit "Entrance=" ++ E :=
      not_amp_append (by decide) (fun hx => (hEs 38 hx).1 rfl)
    have n6 : (38 : Nat) ∉ lit "Street=" ++ S :=
      not_amp_append (by decide) (fun hx => (hSs 38 hx).1 rfl)
    rw [splitOn_amp_step _ _ n1, splitOn_amp_step _ _ n2, splitOn_amp_step _ _ n3,
      splitOn_amp_step _ _ n4, splitOn_amp_step _ _ n5, splitOn_amp_last _ n6]

/-- Witness for `buildUrl_parameter_order`: a city holding `&` and `=`. -/
theorem buildUrl_parameter_order_witness :
    buildUrl (lit "a&b=c") (lit "Ben Gurion") (lit "7") (lit "") =
        some (BASE_URL ++ lit "?OpenAgent&Location=a%26b%3Dc&POB=&House=7&Entrance=" ++
          lit "&Street=Ben Gurion") ∧
      ∃ C H E S query, encodeURIComponent (trim (lit "a&b=c")) = some C ∧
        encodeURIComponent (trim (lit "7")) = some H ∧
        encodeURIComponent (trim (lit "")) = some E ∧
        encodeParam (trim (lit "Ben Gurion")) true = some S ∧
        BASE_URL ++ lit "?OpenAgent&Location=a%26b%3Dc&POB=&House=7&Entrance=" ++
            lit "&Street=Ben Gurion" =
          BASE_URL ++ lit "?OpenAgent&Location=" ++ C ++ lit "&POB=&House=" ++ H ++
            lit "&Entrance=" ++ E ++ lit "&Street=" ++ S ∧
        (∀ x ∈ C ++ H ++ E ++ S, x ≠ 38 ∧ x ≠ 61) ∧
        BASE_URL ++ lit "?OpenAgent&Location=a%26b%3Dc&POB=&House=7&Entrance=" ++
            lit "&Street=Ben Gurion" = BASE_URL ++ lit "?" ++ query ∧
        query.splitOn 38 = [lit "OpenAgent", lit "Location=" ++ C, lit "POB=",
          lit "House=" ++ H, lit "Entrance=" ++ E, lit "Street=" ++ S] :=
  ⟨by decide, buildUrl_parameter_order (lit "a&b=c") (lit "Ben Gurion") (lit "7") (lit "") _
    (by decide)⟩

/-! ### Block classification -/

theorem includes_iff_infix (s sub : JSString) : includes s sub = true ↔ sub <:+: s := by
  induction s with
  | nil =>
    rw [includes, List.infix_nil]
    cases sub <;> simp
  | cons c cs ih =>
    rw [includes, Bool.or_eq_true, List.infix_cons_iff, ih, List.isPrefixOf_iff_prefix]

theorem hasBlockSignature_iff (t : JSString) :
    hasBlockSignature t = true ↔
      (lit "captcha" <:+: t ∨ lit "shieldsquare" <:+: t ∨ lit "access denied" <:+: t ∨
        (lit "bot" <:+: t ∧ lit "blocked" <:+: t)) := by
  simp only [hasBlockSignature, Bool.or_eq_true, Bool.and_eq_true, includes_iff_infix]
  tauto

theorem searchZipCode_response {toLowerCase : JSString → JSString}
    {makeRequest : JSString → TransportResult}
    {city street houseNumber entrance url : JSString} {response : Response}
    (hurl : buildUrl city street houseNumber entrance = some url)
    (hresp : makeRequest url = .response response) :
    searchZipCode toLowerCase makeRequest city street houseNumber entrance =
      if !response.ok then .error (.http response.status response.statusText)
      else if hasBlockSignature (toLowerCase response.responseText) then .error .blocked
      else if (parseResponse response.responseText).length == 0 then .error .noMatch
      else .ok (parseResponse response.responseText) := by
  simp only [searchZipCode, hurl, hresp]

theorem response_ok_iff (r : Response) : r.ok = true ↔ 200 ≤ r.status ∧ r.status < 300 := by
  simp [Response.ok]

/-- C5: for a response with a 2xx status, `searchZipCode` fails with the
blocked error exactly when the lower-cased body contains `captcha`, or
`shieldsquare`, or `access denied`, or both `bot` and `blocked`, anywhere in the
body; two bodies with the same lower-cased text get the same verdict; and a body
with a signature never yields records. -/
theorem searchZipCode_blocked_iff (toLowerCase : JSString → JSString)
    (makeRequest : JSString → TransportResult)
    (city street houseNumber entrance url : JSString) (response : Response)
    (hurl : buildUrl city street houseNumber entrance = some url)
    (hresp : makeRequest url = .response response)
    (hok : 200 ≤ response.status ∧ response.status < 300) :
    (searchZipCode toLowerCase makeRequest city street houseNumber entrance = .error .blocked ↔
      (lit "captcha" <:+: toLowerCase response.responseText ∨
        lit "shieldsquare" <:+: toLowerCase response.responseText ∨
        lit "access denied" <:+: toLowerCase response.responseText ∨
        (lit "bot" <:+: toLowerCase response.responseText ∧
          lit "blocked" <:+: toLowerCase response.responseText))) ∧
    (∀ (makeRequest2 : JSString → TransportResult) (response2 : Response),
      makeRequest2 url = .response response2 →
      200 ≤ response2.status ∧ response2.status < 300 →
      toLowerCase response2.responseText = toLowerCase response.responseText →
      (searchZipCode toLowerCase makeRequest2 city street houseNumber entrance = .error .blocked ↔
        searchZipCode toLowerCase makeRequest city street houseNumber entrance =
          .error .blocked)) ∧
    (hasBlockSignature (toLowerCase response.responseText) = true →
      ∀ records, searchZipCode toLowerCase makeRequest city street houseNumber entrance ≠
        .ok records) := by
  have hverdict : ∀ (mk : JSString → TransportResult) (r : Response),
      mk url = .response r → 200 ≤ r.status ∧ r.status < 300 →
      (searchZipCode toLowerCase mk city street houseNumber entrance = .error .blocked ↔
        hasBlockSignature (toLowerCase r.responseText) = true) := by
    intro mk r hr hk
    rw [searchZipCode_response hurl hr]
    have hk2 : r.ok = true := (response_ok_iff r).2 hk
    simp only [hk2, Bool.not_true, Bool.false_eq_true, if_false]
    cases hb : hasBlockSignature (toLowerCase r.responseText) with
    | true => simp
    | false =>
      simp only [Bool.false_eq_true, if_false, iff_false]
      by_cases hp : ((parseResponse r.responseText).length == 0) = true
      · simp [hp]
      · simp [hp]
  refine ⟨?_, ?_, ?_⟩
  · rw [hverdict makeRequest response hresp hok, hasBlockSignature_iff]
  · intro mk2 r2 hr2 hk2 hlow
    rw [hverdict mk2 r2 hr2 hk2, hverdict makeRequest response hresp hok, hlow]
  · intro hb records
    rw [((hverdict makeRequest response hresp hok).2 hb)]
    simp

/-- Witness for `searchZipCode_blocked_iff`: a status 200 page in mixed case
that also carries an extractable code. -/
theorem searchZipCode_blocked_iff_witness :
    buildUrl (lit "Haifa") (lit "Kinneret") (lit "7") (lit "A") =
        some (BASE_URL ++ lit "?OpenAgent&Location=Haifa&POB=&House=7&Entrance=A" ++
          lit "&Street=Kinneret") ∧
      parseResponse (lit "<p>Solve the CAPTCHA</p> 1234567") ≠ [] ∧
      hasBlockSignature (lowerAscii (lit "<p>Solve the CAPTCHA</p> 1234567")) = true ∧
      ∀ records, searchZipCode lowerAscii
        (fun _ => .response ⟨200, lit "OK", lit "<p>Solve the CAPTCHA</p> 1234567"⟩)
        (lit "Haifa") (lit "Kinneret") (lit "7") (lit "A") ≠ .ok records :=
  ⟨by decide, by decide, by decide,
    (searchZipCode_blocked_iff lowerAscii
      (fun _ => .response ⟨200, lit "OK", lit "<p>Solve the CAPTCHA</p> 1234567"⟩)
      (lit "Haifa") (lit "Kinneret") (lit "7") (lit "A")
      (BASE_URL ++ lit "?OpenAgent&Location=Haifa&POB=&House=7&Entrance=A&Street=Kinneret")
      ⟨200, lit "OK", lit "<p>Solve the CAPTCHA</p> 1234567"⟩
      (by decide) rfl (by decide)).2.2 (by decide)⟩

/-- C6 (as stated, refuted): a response with status 403 whose body is
`captcha` matches a block signature, yet `searchZipCode` fails with the HTTP
error, not with the blocked error: the status test precedes the block test. -/
theorem searchZipCode_blocked_any_status_refuted :
    hasBlockSignature (lowerAscii (lit "captcha")) = true ∧
      searchZipCode lowerAscii (fun _ => .response ⟨403, lit "Forbidden", lit "captcha"⟩)
        (lit "Haifa") (lit "Kinneret") (lit "7") (lit "A") =
          .error (.http 403 (lit "Forbidden")) ∧
      searchZipCode lowerAscii (fun _ => .response ⟨403, lit "Forbidden", lit "captcha"⟩)
        (lit "Haifa") (lit "Kinneret") (lit "7") (lit "A") ≠ .error .blocked := by
  decide

/-- C6 (amended): for a response whose body contains a block signature,
`searchZipCode` fails with the blocked error when the status is 2xx; with any
other status it fails with the HTTP error of that status, whatever the body. -/
theorem searchZipCode_status_before_block (toLowerCase : JSString → JSString)
    (makeRequest : JSString → TransportResult)
    (city street houseNumber entrance url : JSString) (response : Response)
    (hurl : buildUrl city street houseNumber entrance = some url)
    (hresp : makeRequest url = .response response) :
    (200 ≤ response.status ∧ response.status < 300 →
      hasBlockSignature (toLowerCase response.responseText) = true →
      searchZipCode toLowerCase makeRequest city street houseNumber entrance =
        .error .blocked) ∧
    (¬ (200 ≤ response.status ∧ response.status < 300) →
      searchZipCode toLowerCase makeRequest city street houseNumber entrance =
        .error (.http response.status response.statusText)) := by
  rw [searchZipCode_response hurl hresp]
  constructor
  · intro hok hb
    simp [(response_ok_iff response).2 hok, hb]
  · intro hnok
    have : response.ok = false := by
      cases h : response.ok with
      | false => rfl
      | true => exact absurd ((response_ok_iff response).1 h) hnok
    simp [this]

/-- Witness for `searchZipCode_status_before_block`: the same `captcha` body
with status 200 and with status 503. -/
theorem searchZipCode_status_before_block_witness :
    searchZipCode lowerAscii (fun _ => .response ⟨200, lit "OK", lit "Captcha"⟩)
        (lit "Haifa") (lit "Kinneret") (lit "7") (lit "A") = .error .blocked ∧
      searchZipCode lowerAscii (fun _ => .response ⟨503, lit "Busy", lit "Captcha"⟩)
        (lit "Haifa") (lit "Kinneret") (lit "7") (lit "A") =
          .error (.http 503 (lit "Busy")) :=
  ⟨(searchZipCode_status_before_block lowerAscii
      (fun _ => .response ⟨200, lit "OK", lit "Captcha"⟩)
      (lit "Haifa") (lit "Kinneret") (lit "7") (lit "A")
      (BASE_URL ++ lit "?OpenAgent&Location=Haifa&POB=&House=7&Entrance=A&Street=Kinneret")
      ⟨200, lit "OK", lit "Captcha"⟩
      (by decide) rfl).1 (by decide) (by decide),
    (searchZipCode_status_before_block lowerAscii
      (fun _ => .response ⟨503, lit "Busy", lit "Captcha"⟩)
      (lit "Haifa") (lit "Kinneret") (lit "7") (lit "A")
      (BASE_URL ++ lit "?OpenAgent&Location=Haifa&POB=&House=7&Entrance=A&Street=Kinneret")
      ⟨503, lit "Busy", lit "Captcha"⟩
      (by decide) rfl).2 (by decide)⟩

/-- C7: `searchZipCode` never succeeds with an empty list; and for a response
with a 2xx status whose body matches no block signature it returns exactly
`parseResponse(body)` when that list is non-empty and fails with the no-match
error when it is empty. A failure is an error value and carries no records. -/
theorem searchZipCode_never_empty_success (toLowerCase : JSString → JSString)
    (makeRequest : JSString → TransportResult)
    (city street houseNumber entrance : JSString) :
    (∀ records, searchZipCode toLowerCase makeRequest city street houseNumber entrance =
      .ok records → records ≠ []) ∧
    (∀ url response, buildUrl city street houseNumber entrance = some url →
      makeRequest url = .response response →
      200 ≤ response.status ∧ response.status < 300 →
      hasBlockSignature (toLowerCase response.responseText) = false →
      (parseResponse response.responseText ≠ [] →
        searchZipCode toLowerCase makeRequest city street houseNumber entrance =
          .ok (parseResponse response.responseText)) ∧
      (parseResponse response.responseText = [] →
        searchZipCode toLowerCase makeRequest city street houseNumber entrance =
          .error .noMatch)) := by
  constructor
  · intro records h
    unfold searchZipCode at h
    split at h
    · simp at h
    · split at h
      · simp at h
      · simp only at h
        split at h
        · simp at h
        · split at h
          · simp at h
          · split at h
            · simp at h
            · rename_i hlen
              simp only [Except.ok.injEq] at h
              subst h
              intro hnil
              simp [hnil] at hlen
  · intro url response hurl hresp hok hclean
    rw [searchZipCode_response hurl hresp]
    simp only [(response_ok_iff response).2 hok, hclean, Bool.not_true, Bool.false_eq_true,
      if_false]
    constructor
    · intro hne
      have : ((parseResponse response.responseText).length == 0) = false := by
        simpa using hne
      simp [this]
    · intro hnil
      simp [hnil]

/-- Witness for `searchZipCode_never_empty_success`: a status 200 body with
two equal codes, returned in order with the duplicate kept. -/
theorem searchZipCode_never_empty_success_witness :
    searchZipCode lowerAscii (fun _ => .response ⟨200, lit "OK", lit "12345, 12345"⟩)
        (lit "Haifa") (lit "Kinneret") (lit "7") (lit "A") =
      .ok [⟨lit "12345", lit "12345, 12345"⟩, ⟨lit "12345", lit "12345, 12345"⟩] :=
  (((searchZipCode_never_empty_success lowerAscii
      (fun _ => .response ⟨200, lit "OK", lit "12345, 12345"⟩)
      (lit "Haifa") (lit "Kinneret") (lit "7") (lit "A")).2
      (BASE_URL ++ lit "?OpenAgent&Location=Haifa&POB=&House=7&Entrance=A&Street=Kinneret")
      ⟨200, lit "OK", lit "12345, 12345"⟩ (by decide) rfl (by decide) (by decide)).1
      (by decide)).trans (by decide)

/-! ### The search history -/

theorem keep_iff_key_ne (item e : HistoryItem) :
    (item.city != e.city || item.street != e.street || item.houseNumber != e.houseNumber) =
      decide (identityKey item ≠ identityKey e) := by
  simp only [identityKey, ne_eq, Prod.mk.injEq, not_and]
  by_cases h1 : item.city = e.city <;> by_cases h2 : item.street = e.street <;>
    by_cases h3 : item.houseNumber = e.houseNumber <;> simp [h1, h2, h3]

theorem isHistoryEnabled_of_ne {st : Store} (hen : st.historyEnabled ≠ some false) :
    isHistoryEnabled st = true := by
  unfold isHistoryEnabled
  split
  · rename_i h
    exact absurd h hen
  · rfl

theorem getMaxHistoryItems_of_pos {st : Store} {N : Nat} (hN : st.maxHistoryItems = some N)
    (hpos : 0 < N) : getMaxHistoryItems st = N := by
  have : (N == 0) = false := by simpa using Nat.pos_iff_ne_zero.1 hpos
  simp [getMaxHistoryItems, hN, this]

theorem saveToHistory_eq {st : Store} {N : Nat} (hen : st.historyEnabled ≠ some false)
    (hN : st.maxHistoryItems = some N) (hpos : 0 < N) (e : HistoryItem) :
    saveToHistory st e = ⟨st.historyEnabled, st.maxHistoryItems,
      some ((e :: (getHistory st).filter
        (fun item => decide (identityKey item ≠ identityKey e))).take N)⟩ := by
  have hf : (fun item : HistoryItem =>
      item.city != e.city || item.street != e.street || item.houseNumber != e.houseNumber) =
      fun item => decide (identityKey item ≠ identityKey e) :=
    funext (fun item => keep_iff_key_ne item e)
  simp only [saveToHistory, isHistoryEnabled_of_ne hen, getMaxHistoryItems_of_pos hN hpos,
    Bool.not_true, Bool.false_eq_true, if_false, hf]
  split
  · rfl
  · rename_i hle
    rw [List.take_of_length_le (by omega)]

theorem getHistory_saveToHistory {st : Store} {N : Nat} (hen : st.historyEnabled ≠ some false)
    (hN : st.maxHistoryItems = some N) (hpos : 0 < N) (e : HistoryItem) :
    getHistory (saveToHistory st e) = (e :: (getHistory st).filter
      (fun item => decide (identityKey item ≠ identityKey e))).take N := by
  rw [saveToHistory_eq hen hN hpos]
  rfl

theorem foldl_saveToHistory_settings (es : List HistoryItem) :
    ∀ st : Store, (es.foldl saveToHistory st).historyEnabled = st.historyEnabled ∧
      (es.foldl saveToHistory st).maxHistoryItems = st.maxHistoryItems := by
  induction es with
  | nil => intro st; exact ⟨rfl, rfl⟩
  | cons e es ih =>
    intro st
    rw [List.foldl_cons]
    have h := ih (saveToHistory st e)
    have h2 : (saveToHistory st e).historyEnabled = st.historyEnabled ∧
        (saveToHistory st e).maxHistoryItems = st.maxHistoryItems := by
      unfold saveToHistory
      split <;> exact ⟨rfl, rfl⟩
    exact ⟨h.1.trans h2.1, h.2.trans h2.2⟩

theorem filter_key_ne_of_fresh {l : List HistoryItem} {e : HistoryItem}
    (h : ∀ item ∈ l, identityKey item ≠ identityKey e) :
    l.filter (fun item => decide (identityKey item ≠ identityKey e)) = l := by
  rw [List.filter_eq_self]
  intro item hitem
  simpa using h item hitem

theorem take_cons_take (N : Nat) (e : HistoryItem) (l : List HistoryItem) :
    (e :: l.take N).take N = (e :: l).take N := by
  cases N with
  | zero => rfl
  | succ n =>
    rw [List.take_succ_cons, List.take_succ_cons, List.take_take]
    congr 2
    omega

theorem foldl_saveToHistory_fresh {N : Nat} (hpos : 0 < N) (es : List HistoryItem) :
    ∀ st : Store, st.historyEnabled ≠ some false → st.maxHistoryItems = some N →
      getHistory st = [] → (es.map identityKey).Nodup →
      getHistory (es.foldl saveToHistory st) = es.reverse.take N := by
  induction es using List.reverseRecOn with
  | nil => intro st _ _ hempty _; simpa using hempty
  | append_singleton es e ih =>
    intro st hen hN hempty hnodup
    rw [List.map_append, List.nodup_append] at hnodup
    obtain ⟨hes, _, hdisj⟩ := hnodup
    have hset := foldl_saveToHistory_settings es st
    rw [List.foldl_append, List.foldl_cons, List.foldl_nil,
      getHistory_saveToHistory (hset.1 ▸ hen) (hset.2.trans hN) hpos, ih st hen hN hempty hes]
    have hfresh : ∀ item ∈ es.reverse.take N, identityKey item ≠ identityKey e := by
      intro item hitem heq
      have hmem : item ∈ es := List.mem_reverse.1 (List.mem_of_mem_take hitem)
      exact hdisj (List.mem_map_of_mem identityKey hmem) (by simp [heq])
    rw [filter_key_ne_of_fresh hfresh, take_cons_take, List.reverse_append]
    rfl

/-- C8: with history enabled and a positive capacity `N`, after
`saveToHistory` the history has at most `N` entries and is a prefix of the
untruncated list (entries are removed from the tail only); recording an entry
with a new key into a full history of `N` entries leaves the new entry followed
by the former first `N - 1`; and inserting `N + 1` entries with pairwise
distinct keys into an empty history leaves exactly the `N` most recently
inserted, newest first. -/
theorem saveToHistory_capacity (st : Store) (N : Nat)
    (hen : st.historyEnabled ≠ some false) (hN : st.maxHistoryItems = some N)
    (hpos : 0 < N) :
    (∀ e, (getHistory (saveToHistory st e)).length ≤ N ∧
      getHistory (saveToHistory st e) <+: e :: (getHistory st).filter
        (fun item => decide (identityKey item ≠ identityKey e))) ∧
    (∀ e, (getHistory st).length = N →
      (∀ item ∈ getHistory st, identityKey item ≠ identityKey e) →
      getHistory (saveToHistory st e) = e :: (getHistory st).take (N - 1) ∧
        (getHistory (saveToHistory st e)).length = N) ∧
    (∀ es : List HistoryItem, es.length = N + 1 → (es.map identityKey).Nodup →
      getHistory st = [] →
      getHistory (es.foldl saveToHistory st) = es.reverse.take N ∧
        (getHistory (es.foldl saveToHistory st)).length = N) := by
  refine ⟨?_, ?_, ?_⟩
  · intro e
    rw [getHistory_saveToHistory hen hN hpos]
    exact ⟨by rw [List.length_take]; omega, List.take_prefix _ _⟩
  · intro e hfull hfresh
    rw [getHistory_saveToHistory hen hN hpos, filter_key_ne_of_fresh hfresh]
    obtain ⟨n, rfl⟩ : ∃ n, N = n + 1 := ⟨N - 1, by omega⟩
    rw [List.take_succ_cons]
    refine ⟨rfl, ?_⟩
    rw [List.length_cons, List.length_take]
    omega
  · intro es hlen hnodup hempty
    rw [foldl_saveToHistory_fresh hpos es st hen hN hempty hnodup]
    refine ⟨rfl, ?_⟩
    rw [List.length_take, List.length_reverse]
    omega

/-- Witness for `saveToHistory_capacity`: capacity 2 and three insertions. -/
theorem saveToHistory_capacity_witness :
    getHistory ([entryOf "Haifa" "Kinneret" "7" 1, entryOf "Haifa" "Herzl" "1" 2,
        entryOf "Eilat" "Herzl" "1" 3].foldl saveToHistory ⟨some true, some 2, none⟩) =
      [entryOf "Eilat" "Herzl" "1" 3, entryOf "Haifa" "Herzl" "1" 2] :=
  (((saveToHistory_capacity ⟨some true, some 2, none⟩ 2 (by decide) rfl (by decide)).2.2
    [entryOf "Haifa" "Kinneret" "7" 1, entryOf "Haifa" "Herzl" "1" 2,
      entryOf "Eilat" "Herzl" "1" 3] rfl (by decide) rfl).1).trans (by decide)

/-- C9: with history enabled and a positive capacity, when the history holds
at most one entry per identity key and the new entry has the city, street and
house number of a stored entry, after `saveToHistory` the new entry sits at
index 0, no other entry carries its key (the stored one is gone), the other
entries are the former ones in their order, the size has not grown and the
history still holds at most one entry per key. -/
theorem saveToHistory_dedup (st : Store) (N : Nat)
    (hen : st.historyEnabled ≠ some false) (hN : st.maxHistoryItems = some N)
    (hpos : 0 < N) (e : HistoryItem)
    (hunique : ((getHistory st).map identityKey).Nodup)
    (hold : ∃ old ∈ getHistory st, identityKey old = identityKey e) :
    ∃ rest, getHistory (saveToHistory st e) = e :: rest ∧
      (∀ x ∈ rest, identityKey x ≠ identityKey e) ∧
      rest = ((getHistory st).filter
        (fun item => decide (identityKey item ≠ identityKey e))).take (N - 1) ∧
      List.Sublist rest (getHistory st) ∧
      (getHistory (saveToHistory st e)).length ≤ (getHistory st).length ∧
      ((getHistory (saveToHistory st e)).map identityKey).Nodup := by
  obtain ⟨n, rfl⟩ : ∃ n, N = n + 1 := ⟨N - 1, by omega⟩
  have hsave := getHistory_saveToHistory hen hN hpos e
  rw [List.take_succ_cons] at hsave
  have hsub : List.Sublist (((getHistory st).filter
      (fun item => decide (identityKey item ≠ identityKey e))).take n) (getHistory st) :=
    (List.take_sublist _ _).trans (List.filter_sublist _)
  have hkeys : ∀ x ∈ ((getHistory st).filter
      (fun item => decide (identityKey item ≠ identityKey e))).take n,
      identityKey x ≠ identityKey e := by
    intro x hx
    have := (List.mem_filter.1 (List.mem_of_mem_take hx)).2
    simpa using this
  have hlt : ((getHistory st).filter
      (fun item => decide (identityKey item ≠ identityKey e))).length <
      (getHistory st).length := by
    rw [List.length_filter_lt_length_iff_exists]
    obtain ⟨old, hmem, hkey⟩ := hold
    exact ⟨old, hmem, by simp [hkey]⟩
  refine ⟨_, hsave, hkeys, rfl, hsub, ?_, ?_⟩
  · rw [hsave, List.length_cons, List.length_take]
    omega
  · rw [hsave, List.map_cons, List.nodup_cons]
    constructor
    · intro hmem
      obtain ⟨x, hx, hxe⟩ := List.mem_map.1 hmem
      exact hkeys x hx hxe
    · exact List.Nodup.sublist (List.Sublist.map identityKey hsub) hunique

/-- Witness for `saveToHistory_dedup`: the same address searched again with
another entrance and a later timestamp. -/
theorem saveToHistory_dedup_witness :
    getHistory (saveToHistory ⟨none, some 10, some [entryOf "Haifa" "Herzl" "1" 2,
        entryOf "Haifa" "Kinneret" "7" 1]⟩
        ⟨lit "Haifa", lit "Kinneret", lit "7", lit "B", [], 3⟩) =
      [⟨lit "Haifa", lit "Kinneret", lit "7", lit "B", [], 3⟩,
        entryOf "Haifa" "Herzl" "1" 2] := by
  obtain ⟨rest, hsave, _, hrest, _⟩ := saveToHistory_dedup
    ⟨none, some 10, some [entryOf "Haifa" "Herzl" "1" 2, entryOf "Haifa" "Kinneret" "7" 1]⟩ 10
    (by decide) rfl (by decide) ⟨lit "Haifa", lit "Kinneret", lit "7", lit "B", [], 3⟩
    (by decide) ⟨entryOf "Haifa" "Kinneret" "7" 1, by decide, by decide⟩
  rw [hsave, hrest]
  decide

/-- C10 (as stated, refuted): the stored entry and the new entry have equal
key fields after trimming (`Haifa` against ` Haifa`), yet `saveToHistory` keeps
both: the stored entry is not replaced. -/
theorem saveToHistory_trimmed_identity_refuted :
    trimmedKey (entryOf " Haifa" "Kinneret" "7" 2) = trimmedKey (entryOf "Haifa" "Kinneret" "7" 1) ∧
      getHistory (saveToHistory ⟨none, none, some [entryOf "Haifa" "Kinneret" "7" 1]⟩
        (entryOf " Haifa" "Kinneret" "7" 2)) =
        [entryOf " Haifa" "Kinneret" "7" 2, entryOf "Haifa" "Kinneret" "7" 1] := by
  decide

/-- C10 (amended): `saveToHistory` compares the key fields as they are,
without trimming: a stored entry is dropped exactly when its city, street and
house number equal those of the new entry as strings; any other stored entry -
also one that differs only by surrounding whitespace - stays behind the new
entry, as far as the capacity allows. -/
theorem saveToHistory_identity_exact (st : Store) (N : Nat)
    (hen : st.historyEnabled ≠ some false) (hN : st.maxHistoryItems = some N)
    (hpos : 0 < N) (e : HistoryItem) :
    getHistory (saveToHistory st e) = (e :: (getHistory st).filter
      (fun item => decide (identityKey item ≠ identityKey e))).take N ∧
    (∀ old ∈ getHistory st, identityKey old = identityKey e →
      old ∉ (getHistory (saveToHistory st e)).tail) ∧
    (∀ old ∈ getHistory st, identityKey old ≠ identityKey e →
      (getHistory st).length < N → old ∈ (getHistory (saveToHistory st e)).tail) := by
  obtain ⟨n, rfl⟩ : ∃ n, N = n + 1 := ⟨N - 1, by omega⟩
  have hsave := getHistory_saveToHistory hen hN hpos e
  refine ⟨hsave, ?_, ?_⟩
  · intro old _ hkey hmem
    rw [hsave, List.take_succ_cons, List.tail_cons] at hmem
    have := (List.mem_filter.1 (List.mem_of_mem_take hmem)).2
    simp [hkey] at this
  · intro old hmem hkey hlen
    rw [hsave, List.take_succ_cons, List.tail_cons, List.take_of_length_le]
    · exact List.mem_filter.2 ⟨hmem, by simpa using hkey⟩
    · have := List.length_filter_le
        (fun item => decide (identityKey item ≠ identityKey e)) (getHistory st)
      omega

/-- Witness for `saveToHistory_identity_exact`: an entry whose city differs
from the stored one by a leading space is recorded beside it. -/
theorem saveToHistory_identity_exact_witness :
    entryOf "Haifa" "Kinneret" "7" 1 ∈
      (getHistory (saveToHistory ⟨some true, some 10, some [entryOf "Haifa" "Kinneret" "7" 1]⟩
        (entryOf " Haifa" "Kinneret" "7" 2))).tail :=
  (saveToHistory_identity_exact ⟨some true, some 10, some [entryOf "Haifa" "Kinneret" "7" 1]⟩
    10 (by decide) rfl (by decide) (entryOf " Haifa" "Kinneret" "7" 2)).2.2
    (entryOf "Haifa" "Kinneret" "7" 1) (by decide) (by decide) (by decide)

/-! ### End-to-end resolution -/

/-- C11 (as stated, refuted): for the query Haifa, Kinneret, 7, A and a
transport that answers status 200 with body `RES0031234`, `searchZipCode`
succeeds with exactly one record, but its code is `031234`, not `31234`. -/
theorem searchZipCode_end_to_end_code_refuted :
    searchZipCode lowerAscii (fun _ => .response ⟨200, lit "OK", lit "RES0031234"⟩)
        (lit "Haifa") (lit "Kinneret") (lit "7") (lit "A") =
        .ok [⟨lit "031234", lit "RES0031234"⟩] ∧
      searchZipCode lowerAscii (fun _ => .response ⟨200, lit "OK", lit "RES0031234"⟩)
        (lit "Haifa") (lit "Kinneret") (lit "7") (lit "A") ≠
        .ok [⟨lit "31234", lit "RES0031234"⟩] := by
  decide

/-- C11 (amended): for the query Haifa, Kinneret, 7, A, whenever the
transport answers the built URL with status 200 and body `RES0031234` (whose
lower-cased text is `res0031234`), `searchZipCode` succeeds with exactly one
record, and that record has code `031234`. -/
theorem searchZipCode_end_to_end (toLowerCase : JSString → JSString)
    (makeRequest : JSString → TransportResult) (statusText : JSString)
    (hlower : toLowerCase (lit "RES0031234") = lit "res0031234")
    (hresp : makeRequest (BASE_URL ++
        lit "?OpenAgent&Location=Haifa&POB=&House=7&Entrance=A&Street=Kinneret") =
      .response ⟨200, statusText, lit "RES0031234"⟩) :
    buildUrl (lit "Haifa") (lit "Kinneret") (lit "7") (lit "A") = some (BASE_URL ++
        lit "?OpenAgent&Location=Haifa&POB=&House=7&Entrance=A&Street=Kinneret") ∧
      searchZipCode toLowerCase makeRequest (lit "Haifa") (lit "Kinneret") (lit "7") (lit "A") =
        .ok [⟨lit "031234", lit "RES0031234"⟩] := by
  have hurl : buildUrl (lit "Haifa") (lit "Kinneret") (lit "7") (lit "A") = some (BASE_URL ++
      lit "?OpenAgent&Location=Haifa&POB=&House=7&Entrance=A&Street=Kinneret") := by decide
  refine ⟨hurl, ?_⟩
  rw [searchZipCode_response hurl hresp]
  have hok : (⟨200, statusText, lit "RES0031234"⟩ : Response).ok = true := rfl
  have hclean : hasBlockSignature (lit "res0031234") = false := by decide
  have hparse : parseResponse (lit "RES0031234") = [⟨lit "031234", lit "RES0031234"⟩] := by
    decide
  simp only [hok, hlower, hclean, hparse, Bool.not_true, Bool.false_eq_true, if_false,
    List.length_singleton]
  rfl

/-- Witness for `searchZipCode_end_to_end`: the ASCII lower-casing and a
transport stub that always answers status 200 with body `RES0031234`. -/
theorem searchZipCode_end_to_end_witness :
    searchZipCode lowerAscii (fun _ => .response ⟨200, lit "OK", lit "RES0031234"⟩)
        (lit "Haifa") (lit "Kinneret") (lit "7") (lit "A") =
      .ok [⟨lit "031234", lit "RES0031234"⟩] :=
  (searchZipCode_end_to_end lowerAscii
    (fun _ => .response ⟨200, lit "OK", lit "RES0031234"⟩) (lit "OK") (by decide) rfl).2

/-! ### The whole-body tier and the shape of the records -/

theorem matchResAt_digit (c : Nat) (cs : JSString) (hc : isDigit c = true) :
    matchResAt (c :: cs) = none := by
  unfold matchResAt
  split
  · rename_i rest heq
    simp only [List.cons.injEq] at heq
    rw [heq.1] at hc
    simp [isDigit] at hc
  · rfl

theorem matchRes_digits (s : JSString) (h : s.all isDigit = true) : matchRes s = none := by
  induction s with
  | nil => rfl
  | cons c cs ih =>
    simp only [List.all_cons, Bool.and_eq_true] at h
    rw [matchRes, matchResAt_digit c cs h.1]
    exact ih h.2

theorem standaloneRuns_digits_after_word (s : JSString) :
    ∀ prev, isWordAt prev = true → s.all isDigit = true → standaloneRuns prev s = [] := by
  induction s with
  | nil => intro prev _ _; rfl
  | cons c cs ih =>
    intro prev hprev hall
    simp only [List.all_cons, Bool.and_eq_true] at hall
    rw [standaloneRuns, standaloneRunsAt_after_word prev _ hprev, List.nil_append]
    exact ih (some c) (isWordChar_of_isDigit hall.1) hall.2

theorem eq_singleton_of_nodup {l : List Nat} {a : Nat} (hnd : l.Nodup)
    (hall : ∀ x ∈ l, x = a) (hmem : a ∈ l) : l = [a] := by
  cases l with
  | nil => simp at hmem
  | cons x xs =>
    have hx : x = a := hall x (List.mem_cons_self _ _)
    subst hx
    cases xs with
    | nil => rfl
    | cons y ys =>
      have hy : y = x := hall y (by simp)
      subst hy
      simp at hnd

theorem standaloneRuns_zipLiteral {s : JSString} (h : isZipLiteral s = true) :
    standaloneRuns none s = [s] := by
  rw [isZipLiteral_iff] at h
  obtain ⟨hall, h5, h7⟩ := h
  cases s with
  | nil => simp at h5
  | cons c cs =>
    have hrun : isStandaloneRun none (c :: cs) (c :: cs).length = true := by
      simp only [isStandaloneRun, List.take_length, List.drop_length, List.head?_nil,
        isFreeNeighbour, hall, h5, h7, decide_True, beq_self_eq_true, Bool.and_self]
    have hfilter : (List.range 8).filter (isStandaloneRun none (c :: cs)) =
        [(c :: cs).length] := by
      apply eq_singleton_of_nodup ((List.nodup_range 8).filter _)
      · intro x hx
        exact isStandaloneRun_unique (List.mem_filter.1 hx).2 hrun
      · rw [List.mem_filter, List.mem_range]
        exact ⟨by omega, hrun⟩
    have hdig := hall
    simp only [List.all_cons, Bool.and_eq_true] at hdig
    rw [standaloneRuns, standaloneRunsAt, hfilter,
      standaloneRuns_digits_after_word cs (some c) (isWordChar_of_isDigit hdig.1) hdig.2]
    simp

theorem mem_standaloneRunsAt {prev : Option Nat} {s z : JSString}
    (h : z ∈ standaloneRunsAt prev s) :
    z.all isDigit = true ∧ 5 ≤ z.length ∧ z.length ≤ 7 ∧ z <+: s := by
  simp only [standaloneRunsAt, List.mem_map, List.mem_filter] at h
  obtain ⟨n, ⟨_, hn⟩, rfl⟩ := h
  simp only [isStandaloneRun, Bool.and_eq_true, decide_eq_true_eq, beq_iff_eq] at hn
  obtain ⟨⟨⟨⟨⟨h5, h7⟩, hlen⟩, hall⟩, _⟩, _⟩ := hn
  exact ⟨hall, by omega, by omega, List.take_prefix _ _⟩

theorem mem_standaloneRuns (s : JSString) :
    ∀ prev z, z ∈ standaloneRuns prev s →
      z.all isDigit = true ∧ 5 ≤ z.length ∧ z.length ≤ 7 ∧ z <:+: s := by
  induction s with
  | nil => intro prev z h; simp [standaloneRuns] at h
  | cons c cs ih =>
    intro prev z h
    rw [standaloneRuns, List.mem_append] at h
    rcases h with h | h
    · obtain ⟨h1, h2, h3, h4⟩ := mem_standaloneRunsAt h
      exact ⟨h1, h2, h3, h4.isInfix⟩
    · obtain ⟨h1, h2, h3, h4⟩ := ih (some c) z h
      exact ⟨h1, h2, h3, h4.trans (List.suffix_cons c cs).isInfix⟩

theorem taggedTier_some {t z : JSString} (h : taggedTier t = some z) :
    isZipLiteral z = true ∧ ∃ m, matchRes t = some m ∧ z = m.drop 4 := by
  unfold taggedTier at h
  split at h
  · rename_i m hm
    simp only at h
    split at h
    · rename_i hz
      simp only [Option.some.injEq] at h
      subst h
      exact ⟨hz, m, hm, rfl⟩
    · simp at h
  · simp at h

theorem taggedTier_digits {t : JSString} (h : t.all isDigit = true) : taggedTier t = none := by
  simp only [taggedTier, matchRes_digits t h]

theorem isEmpty_of_trim_ne_nil {body : JSString} (h : trim body ≠ []) :
    body.isEmpty = false := by
  cases body with
  | nil => exact absurd trim_nil h
  | cons c cs => rfl

/-- C12: when the trimmed body consists of 5 to 7 decimal digits and nothing
else, `parseResponse` returns exactly one record, whose code is the trimmed
text. -/
theorem parseResponse_whole_body (body : JSString) (hdig : (trim body).all isDigit = true)
    (h5 : 5 ≤ (trim body).length) (h7 : (trim body).length ≤ 7) :
    parseResponse body = [⟨trim body, trim body⟩] := by
  have hne : body.isEmpty = false := by
    apply isEmpty_of_trim_ne_nil
    intro hnil
    rw [hnil] at h5
    simp at h5
  have hlit : isZipLiteral (trim body) = true := (isZipLiteral_iff _).2 ⟨hdig, h5, h7⟩
  simp only [parseResponse, hne, Bool.false_eq_true, if_false, taggedTier_digits hdig,
    matchZipAll_eq_standaloneRuns, standaloneRuns_zipLiteral hlit, List.length_singleton,
    Nat.lt_one_iff, if_true, List.map_cons, List.map_nil]

/-- Witness for `parseResponse_whole_body`: the body `9999999` yields a single
record with code `9999999`. -/
theorem parseResponse_whole_body_witness :
    parseResponse (lit "9999999") = [⟨lit "9999999", lit "9999999"⟩] :=
  (parseResponse_whole_body (lit "9999999") (by decide) (by decide) (by decide)).trans
    (by decide)

theorem trim_infix_self (s : JSString) : trim s <:+: s := by
  have h1 : trimStart s <:+ s := List.dropWhile_suffix _
  have h2 : trimEnd (trimStart s) <+: trimStart s := by
    unfold trimEnd
    have h := List.dropWhile_suffix isWhiteSpace (l := (trimStart s).reverse)
    rw [← List.reverse_prefix, List.reverse_reverse] at h
    exact h
  exact h2.isInfix.trans h1.isInfix

theorem matchRes_some (s : JSString) :
    ∀ m, matchRes s = some m → IsResToken m ∧ m <:+: s := by
  induction s with
  | nil => intro m h; simp [matchRes] at h
  | cons c cs ih =>
    intro m h
    rw [matchRes] at h
    cases hat : matchResAt (c :: cs) with
    | some m2 =>
      rw [hat] at h
      simp only [Option.some.injEq] at h
      subst h
      obtain ⟨htok, rest, hrest⟩ := matchResAt_some hat
      exact ⟨htok, (List.prefix_iff_eq_append.2 (by rw [hrest]; simp)).isInfix⟩
    | none =>
      rw [hat] at h
      obtain ⟨htok, hin⟩ := ih m h
      exact ⟨htok, hin.trans (List.suffix_cons c cs).isInfix⟩

theorem mem_parseResponse {body : JSString} {r : ZipRecord} (hr : r ∈ parseResponse body) :
    r.zipCode.all isDigit = true ∧ 5 ≤ r.zipCode.length ∧ r.zipCode.length ≤ 7 ∧
      r.raw = trim body ∧ r.zipCode <:+: trim body := by
  unfold parseResponse at hr
  split at hr
  · simp at hr
  · simp only at hr
    split at hr
    · rename_i zipCode htier
      simp only [List.mem_singleton] at hr
      subst hr
      obtain ⟨hlit, m, hm, rfl⟩ := taggedTier_some htier
      have hz := (isZipLiteral_iff _).1 hlit
      exact ⟨hz.1, hz.2.1, hz.2.2, rfl,
        (List.drop_suffix 4 m).isInfix.trans (matchRes_some _ m hm).2⟩
    · split at hr
      · rw [matchZipAll_eq_standaloneRuns, List.mem_map] at hr
        obtain ⟨z, hz, rfl⟩ := hr
        obtain ⟨h1, h2, h3, h4⟩ := mem_standaloneRuns _ _ z hz
        exact ⟨h1, h2, h3, rfl, h4⟩
      · split at hr
        · rename_i hlit
          simp only [List.mem_singleton] at hr
          subst hr
          have hz := (isZipLiteral_iff _).1 hlit
          exact ⟨hz.1, hz.2.1, hz.2.2, rfl, List.infix_refl _⟩
        · simp at hr

/-- C13: every record of `parseResponse(body)` has a code of 5 to 7 decimal
digits and carries the full trimmed body as its raw source, whichever tier
produced it. -/
theorem parseResponse_records_well_formed (body : JSString) (r : ZipRecord)
    (hr : r ∈ parseResponse body) :
    r.zipCode.all isDigit = true ∧ 5 ≤ r.zipCode.length ∧ r.zipCode.length ≤ 7 ∧
      r.raw = trim body := by
  obtain ⟨h1, h2, h3, h4, _⟩ := mem_parseResponse hr
  exact ⟨h1, h2, h3, h4⟩

/-- Witness for `parseResponse_records_well_formed`: the second record of a
body with two bare codes and surrounding blanks. -/
theorem parseResponse_records_well_formed_witness :
    (lit "7654321").all isDigit = true ∧ 5 ≤ (lit "7654321").length ∧
      (lit "7654321").length ≤ 7 ∧ lit "a 12345, 7654321" = trim (lit "  a 12345, 7654321 ") :=
  parseResponse_records_well_formed (lit "  a 12345, 7654321 ")
    ⟨lit "7654321", lit "a 12345, 7654321"⟩ (by decide)

/-- C16: the whole-body tier never decides a result. When the trimmed text is
5 to 7 decimal digits and nothing else, the tagged tier accepts nothing and the
bare-digit tier matches the whole text; and `parseResponse` equals, on every
input, the parser without the whole-body tier. -/
theorem parseResponse_whole_body_tier_redundant :
    (∀ body : JSString, isZipLiteral (trim body) = true →
      taggedTier (trim body) = none ∧ matchZipAll (trim body) = [trim body]) ∧
    (∀ body : JSString, parseResponse body = parseResponseWithoutWholeBody body) := by
  constructor
  · intro body hlit
    exact ⟨taggedTier_digits ((isZipLiteral_iff _).1 hlit).1,
      (matchZipAll_eq_standaloneRuns _).trans (standaloneRuns_zipLiteral hlit)⟩
  · intro body
    unfold parseResponse parseResponseWithoutWholeBody
    split
    · rfl
    · simp only
      split
      · rfl
      · split
        · rfl
        · rename_i hlen
          split
          · rename_i hlit
            rw [matchZipAll_eq_standaloneRuns, standaloneRuns_zipLiteral hlit] at hlen
            simp at hlen
          · rfl

/-- Witness for `parseResponse_whole_body_tier_redundant`: on the body
`9999999` the bare-digit tier already matches the whole text. -/
theorem parseResponse_whole_body_tier_redundant_witness :
    taggedTier (trim (lit "9999999")) = none ∧
      matchZipAll (trim (lit "9999999")) = [trim (lit "9999999")] :=
  parseResponse_whole_body_tier_redundant.1 (lit "9999999") (by decide)

/-- C15: `parseResponse` returns a list for every argument; the list is
empty for a non-string argument, for the empty string, and for every body that
contains no run of five or more consecutive decimal digits. -/
theorem parseResponse_total_empty :
    (∀ v : JSValue, ∃ records, parseResponseValue v = records) ∧
    parseResponseValue .nonString = [] ∧
    parseResponseValue (.str []) = [] ∧
    (∀ body : JSString,
      (¬ ∃ ds : JSString, ds <:+: body ∧ ds.all isDigit = true ∧ 5 ≤ ds.length) →
      parseResponseValue (.str body) = []) := by
  refine ⟨fun v => ⟨_, rfl⟩, rfl, rfl, ?_⟩
  intro body hno
  simp only [parseResponseValue]
  rw [List.eq_nil_iff_forall_not_mem]
  intro r hr
  obtain ⟨h1, h2, _, _, h5⟩ := mem_parseResponse hr
  exact hno ⟨r.zipCode, h5.trans (trim_infix_self body), h1, h2⟩

/-- Witness for `parseResponse_total_empty`: the body `no digits here` yields
the empty list. -/
theorem parseResponse_total_empty_witness :
    parseResponseValue (.str (lit "no digits here")) = [] :=
  parseResponse_total_empty.2.2.2 (lit "no digits here") (by
    rintro ⟨ds, hin, hall, hlen⟩
    cases ds with
    | nil => simp at hlen
    | cons d ds =>
      simp only [List.all_cons, Bool.and_eq_true] at hall
      have hmem : d ∈ lit "no digits here" := hin.subset (List.mem_cons_self _ _)
      have hnone : ∀ x ∈ lit "no digits here", isDigit x = false := by decide
      rw [hnone d hmem] at hall
      exact Bool.false_ne_true hall.1)

/-! ### When `buildUrl` returns -/

theorem not_surrogate_of_whiteSpace {c : Nat} (h : isWhiteSpace c = true) :
    isSurrogate c = false := by
  simp only [isWhiteSpace, Bool.or_eq_true, Bool.and_eq_true, beq_iff_eq,
    decide_eq_true_eq] at h
  simp only [isSurrogate, isLeadSurrogate, isTrailSurrogate, Bool.or_eq_false_iff,
    Bool.and_eq_false_iff, decide_eq_false_iff_not]
  omega

theorem not_surrogate_of_unreserved {c : Nat} (h : isUriUnreserved c = true) :
    isSurrogate c = false := by
  simp only [isUriUnreserved, isAlnum, isDigit, Bool.or_eq_true, Bool.and_eq_true,
    beq_iff_eq, decide_eq_true_eq] at h
  simp only [isSurrogate, isLeadSurrogate, isTrailSurrogate, Bool.or_eq_false_iff,
    Bool.and_eq_false_iff, decide_eq_false_iff_not]
  omega

theorem isWellFormed_cons_of_not_surrogate {c : Nat} (cs : JSString)
    (h : isSurrogate c = false) : isWellFormed (c :: cs) = isWellFormed cs := by
  simp only [isSurrogate, Bool.or_eq_false_iff] at h
  rw [isWellFormed.eq_def]
  simp [h.1, h.2]

theorem isWellFormed_trimStart {s : JSString} (h : isWellFormed s = true) :
    isWellFormed (trimStart s) = true := by
  unfold trimStart
  induction s with
  | nil => exact h
  | cons c cs ih =>
    rw [List.dropWhile_cons]
    split
    · rename_i hws
      rw [isWellFormed_cons_of_not_surrogate cs (not_surrogate_of_whiteSpace hws)] at h
      exact ih h
    · exact h

theorem isWellFormed_of_append_aux (n : Nat) :
    ∀ a t : JSString, a.length ≤ n → (∀ x ∈ t, isSurrogate x = false) →
      isWellFormed (a ++ t) = true → isWellFormed a = true := by
  induction n with
  | zero =>
    intro a t ha _ _
    have : a = [] := List.length_eq_zero.1 (by omega)
    subst this
    rfl
  | succ n ih =>
    intro a t ha ht h
    cases a with
    | nil => rfl
    | cons c cs =>
      simp only [List.length_cons, Nat.add_le_add_iff_right] at ha
      rw [List.cons_append, isWellFormed.eq_def] at h
      rw [isWellFormed.eq_def]
      simp only at h ⊢
      by_cases hl : isLeadSurrogate c = true
      · simp only [hl, if_true] at h ⊢
        cases cs with
        | nil =>
          cases t with
          | nil => simp at h
          | cons d ds =>
            simp only [List.nil_append, Bool.and_eq_true] at h
            have hd := ht d (List.mem_cons_self _ _)
            simp only [isSurrogate, Bool.or_eq_false_iff] at hd
            rw [hd.2] at h
            exact absurd h.1 Bool.false_ne_true
        | cons d ds =>
          simp only [List.cons_append, Bool.and_eq_true] at h ⊢
          exact ⟨h.1, ih ds t (by simp only [List.length_cons] at ha; omega) ht h.2⟩
      · simp only [hl, Bool.false_eq_true, if_false] at h ⊢
        by_cases htr : isTrailSurrogate c = true
        · simp [htr] at h
        · simp only [htr, Bool.false_eq_true, if_false] at h ⊢
          exact ih cs t ha ht h

theorem trimEnd_append (s : JSString) :
    ∃ t : JSString, s = trimEnd s ++ t ∧ ∀ x ∈ t, isWhiteSpace x = true := by
  refine ⟨(s.reverse.takeWhile isWhiteSpace).reverse, ?_, ?_⟩
  · unfold trimEnd
    rw [← List.reverse_append, List.takeWhile_append_dropWhile, List.reverse_reverse]
  · intro x hx
    exact List.mem_takeWhile_imp (List.mem_reverse.1 hx)

theorem isWellFormed_trim {s : JSString} (h : isWellFormed s = true) :
    isWellFormed (trim s) = true := by
  unfold trim
  obtain ⟨t, ht, hws⟩ := trimEnd_append (trimStart s)
  have h2 := isWellFormed_trimStart h
  rw [ht] at h2
  exact isWellFormed_of_append_aux _ _ t (Nat.le_refl _)
    (fun x hx => not_surrogate_of_whiteSpace (hws x hx)) h2

theorem encodeURIComponent_wellFormed_aux (n : Nat) :
    ∀ s : JSString, s.length ≤ n → isWellFormed s = true →
      ∃ out, encodeURIComponent s = some out := by
  induction n with
  | zero =>
    intro s hs _
    have : s = [] := List.length_eq_zero.1 (by omega)
    subst this
    exact ⟨[], rfl⟩
  | succ n ih =>
    intro s hs hwf
    cases s with
    | nil => exact ⟨[], rfl⟩
    | cons c cs =>
      simp only [List.length_cons, Nat.add_le_add_iff_right] at hs
      rw [encodeURIComponent.eq_def]
      simp only
      by_cases hc : isUriUnreserved c = true
      · rw [isWellFormed_cons_of_not_surrogate cs (not_surrogate_of_unreserved hc)] at hwf
        obtain ⟨out, hout⟩ := ih cs hs hwf
        exact ⟨c :: out, by simp [hc, hout]⟩
      · rw [isWellFormed.eq_def] at hwf
        simp only at hwf
        by_cases hl : isLeadSurrogate c = true
        · simp only [hl, if_true] at hwf
          cases cs with
          | nil => simp at hwf
          | cons d ds =>
            simp only [Bool.and_eq_true] at hwf
            obtain ⟨out, hout⟩ := ih ds (by simp only [List.length_cons] at hs; omega) hwf.2
            exact ⟨pctEncode (surrogatePair c d) ++ out, by simp [hc, hl, hwf.1, hout]⟩
        · simp only [hl, Bool.false_eq_true, if_false] at hwf
          by_cases htr : isTrailSurrogate c = true
          · simp [htr] at hwf
          · simp only [htr, Bool.false_eq_true, if_false] at hwf
            obtain ⟨out, hout⟩ := ih cs hs hwf
            exact ⟨pctEncode c ++ out, by simp [hc, hl, htr, hout]⟩

theorem encodeURIComponent_wellFormed {s : JSString} (h : isWellFormed s = true) :
    ∃ out, encodeURIComponent s = some out :=
  encodeURIComponent_wellFormed_aux s.length s (Nat.le_refl _) h

theorem encodeStreetChar_not_surrogate {c : Nat} (h : isSurrogate c = false) :
    ∃ p, encodeStreetChar c = some p := by
  unfold encodeStreetChar
  split
  · exact ⟨_, rfl⟩
  · split
    · exact ⟨_, rfl⟩
    · apply encodeURIComponent_wellFormed
      rw [isWellFormed_cons_of_not_surrogate [] h]
      rfl

theorem encodeStreet_not_surrogate (str : JSString) (h : ∀ c ∈ str, isSurrogate c = false) :
    ∃ parts, str.mapM encodeStreetChar = some parts := by
  induction str with
  | nil => exact ⟨[], rfl⟩
  | cons c cs ih =>
    obtain ⟨p, hp⟩ := encodeStreetChar_not_surrogate (h c (List.mem_cons_self _ _))
    obtain ⟨ps, hps⟩ := ih (fun x hx => h x (List.mem_cons_of_mem _ hx))
    exact ⟨p :: ps, by rw [List.mapM_cons, hp, hps]; rfl⟩

theorem trim_of_whiteSpace {s : JSString} (h : s.all isWhiteSpace = true) : trim s = [] := by
  have h1 : trimStart s = [] := by
    unfold trimStart
    rw [List.dropWhile_eq_nil_iff]
    exact List.all_eq_true.1 h
  rw [trim, h1]
  rfl

/-- C14 (as stated, refuted): a city made of one unpaired surrogate makes
`encodeURIComponent` throw `URIError`, so `buildUrl` returns no URL; the same
happens for a street holding a character outside the Basic Multilingual Plane,
which `encodeParam` splits into two lone surrogates. -/
theorem buildUrl_never_fails_refuted :
    buildUrl [55296] (lit "Kinneret") (lit "7") (lit "A") = none ∧
      buildUrl (lit "Haifa") [55357, 56832] (lit "7") (lit "A") = none := by
  decide

/-- C14 (amended): for every four strings in which city, house number and
entrance hold no unpaired surrogate and the street holds no surrogate code unit
(empty and whitespace-only strings included), `buildUrl` returns a URL; an empty
or whitespace-only input encodes to an empty parameter value. -/
theorem buildUrl_returns (city street houseNumber entrance : JSString)
    (hcity : isWellFormed city = true) (hhouse : isWellFormed houseNumber = true)
    (hentrance : isWellFormed entrance = true)
    (hstreet : ∀ c ∈ street, isSurrogate c = false) :
    ∃ C H E S, buildUrl city street houseNumber entrance =
        some (BASE_URL ++ lit "?OpenAgent&Location=" ++ C ++ lit "&POB=&House=" ++ H ++
          lit "&Entrance=" ++ E ++ lit "&Street=" ++ S) ∧
      (city.all isWhiteSpace = true → C = []) ∧
      (houseNumber.all isWhiteSpace = true → H = []) ∧
      (entrance.all isWhiteSpace = true → E = []) ∧
      (street.all isWhiteSpace = true → S = []) := by
  obtain ⟨C, hC⟩ := encodeURIComponent_wellFormed (isWellFormed_trim hcity)
  obtain ⟨H, hH⟩ := encodeURIComponent_wellFormed (isWellFormed_trim hhouse)
  obtain ⟨E, hE⟩ := encodeURIComponent_wellFormed (isWellFormed_trim hentrance)
  obtain ⟨parts, hparts⟩ := encodeStreet_not_surrogate (trim street)
    (fun c hc => hstreet c ((trim_infix_self street).subset hc))
  have hC2 : encodeParam (trim city) false = some C := by simpa [encodeParam] using hC
  have hH2 : encodeParam (trim houseNumber) false = some H := by simpa [encodeParam] using hH
  have hE2 : encodeParam (trim entrance) false = some E := by simpa [encodeParam] using hE
  have hS2 : encodeParam (trim street) true = some parts.flatten := by
    simp only [encodeParam, if_true, hparts, Option.map_some']
  refine ⟨C, H, E, parts.flatten, ?_, ?_, ?_, ?_, ?_⟩
  · simp only [buildUrl, hC2, hS2, hH2, hE2]
  · intro hws
    rw [trim_of_whiteSpace hws] at hC
    simpa [encodeURIComponent] using hC.symm
  · intro hws
    rw [trim_of_whiteSpace hws] at hH
    simpa [encodeURIComponent] using hH.symm
  · intro hws
    rw [trim_of_whiteSpace hws] at hE
    simpa [encodeURIComponent] using hE.symm
  · intro hws
    rw [trim_of_whiteSpace hws, List.mapM_nil] at hparts
    have : parts = [] := by simpa using hparts.symm
    rw [this]
    rfl

/-- Witness for `buildUrl_returns`: a city outside the Basic Multilingual
Plane, a whitespace-only street and an empty entrance. -/
theorem buildUrl_returns_witness :
    ∃ C H E S, buildUrl [55357, 56832] (lit "  ") (lit "7") (lit "") =
        some (BASE_URL ++ lit "?OpenAgent&Location=" ++ C ++ lit "&POB=&House=" ++ H ++
          lit "&Entrance=" ++ E ++ lit "&Street=" ++ S) ∧
      (([55357, 56832] : JSString).all isWhiteSpace = true → C = []) ∧
      ((lit "7").all isWhiteSpace = true → H = []) ∧
      ((lit "").all isWhiteSpace = true → E = []) ∧
      ((lit "  ").all isWhiteSpace = true → S = []) :=
  buildUrl_returns [55357, 56832] (lit "  ") (lit "7") (lit "") (by decide) (by decide)
    (by decide) (by decide)

end Mikud
